import Mathlib

/-!
Verification of the document-recognition extraction pipeline.

This file gives a shallow embedding of the pure computational core of the
pipeline (IBAN MOD-97 validation, tiling geometry, row deduplication,
aggregation with totalSum recomputation, OCR-based IBAN repair, the
verification-pass filters, row tagging and the cleanup stage) and proves or
refutes the specification claims about it.

Sources embedded (JavaScript):
  - tiling service (validateIBAN, tileImage, shouldTile, normalizeIBAN,
    deduplicateRows, calculateSimilarity, aggregateResults),
  - OCRVerifiedExtractionStage (correctIBANsFromOCR, findBestIBANMatch,
    levenshteinDistance, performVerificationPass filter, mergeResults,
    normalizeInvoiceNumber),
  - IBANValidator.reVerifyTile acceptance filter,
  - ExtractionStage.extractTile row tagging,
  - CleanupStage (INTERNAL_FIELDS, removeInternalFields, cleanupResult).

Modelling conventions: JavaScript strings are Lean String values (character
lists); machine numbers that only ever hold small integers are Nat; money
amounts and similarity ratios are exact rationals (the JavaScript float
comparisons involved are exact at the magnitudes reachable here, noted at
each use); JSON row objects are association lists from keys to a small value
type. Case mapping is the ASCII fragment, which is the fragment exercised by
the program.
-/

namespace DocRec

/-! ## JavaScript character classes (ASCII fragment plus JS whitespace) -/

/-- Character class of the JavaScript regex escape \s (WhiteSpace and
LineTerminator productions). -/
def jsWs (c : Char) : Bool :=
  (c.toNat ∈ [32, 9, 10, 11, 12, 13, 160, 5760, 8232, 8233, 8239, 8287,
              12288, 65279] : Bool) ||
  (8192 ≤ c.toNat && c.toNat ≤ 8202)

/-- Uppercase ASCII letter, the class [A-Z], via character codes as in the
source (charCodeAt between 65 and 90). -/
def isUpperAZ (c : Char) : Bool := 65 ≤ c.toNat && c.toNat ≤ 90

/-- Lowercase ASCII letter, the class [a-z]. -/
def isLowerAZ (c : Char) : Bool := 97 ≤ c.toNat && c.toNat ≤ 122

/-- ASCII digit, the regex class \d. -/
def isDigit09 (c : Char) : Bool := 48 ≤ c.toNat && c.toNat ≤ 57

/-- ASCII letter of either case. -/
def isAlphaCI (c : Char) : Bool := isUpperAZ c || isLowerAZ c

/-- Word character of the JavaScript regex escape \w, the class [A-Za-z0-9_]. -/
def isWordChar (c : Char) : Bool := isAlphaCI c || isDigit09 c || c = '_'

/-- ASCII upper-casing, modelling String.prototype.toUpperCase on the
characters the pipeline manipulates. -/
def jsToUpper (c : Char) : Char :=
  if isLowerAZ c then Char.ofNat (c.toNat - 32) else c

/-- ASCII lower-casing, modelling String.prototype.toLowerCase on the
characters the pipeline manipulates. -/
def jsToLower (c : Char) : Char :=
  if isUpperAZ c then Char.ofNat (c.toNat + 32) else c

/-- Removal of every \s character, modelling .replace with the \s class and
the global flag. -/
def stripWs (l : List Char) : List Char := l.filter (fun c => !jsWs c)

/-- Trimming of leading and trailing \s characters, modelling
String.prototype.trim. -/
def jsTrim (l : List Char) : List Char :=
  ((l.dropWhile jsWs).reverse.dropWhile jsWs).reverse

/-- Lower-casing of a character list. -/
def jsLowerAll (l : List Char) : List Char := l.map jsToLower

/-! ## validateIBAN (tiling service)

JavaScript source:
  normalize by removing \s and upper-casing; test the structural regex
  anchored on both sides, two uppercase letters, two digits, then 11 to 30
  alphanumerics; move the first 4 characters to the end; replace each letter
  A..Z with its two-digit code 10..35; evaluate the digit string with BigInt
  and accept exactly when the remainder mod 97 is 1.  A BigInt parse failure
  returns false (unreachable after the regex, but embedded faithfully). -/

/-- Normalised form of an IBAN candidate: whitespace removed, upper-cased. -/
def normIBAN (l : List Char) : List Char := (stripWs l).map jsToUpper

/-- Structural test for the regex [A-Z]{2}[0-9]{2}[A-Z0-9]{11,30} anchored at
both ends. -/
def ibanStructOK : List Char → Bool
  | c0 :: c1 :: c2 :: c3 :: rest =>
      isUpperAZ c0 && isUpperAZ c1 && isDigit09 c2 && isDigit09 c3 &&
      rest.all (fun c => isUpperAZ c || isDigit09 c) &&
      decide (11 ≤ rest.length) && decide (rest.length ≤ 30)
  | _ => false

/-- Letter-to-digits substitution: an uppercase letter becomes the decimal
digits of code − 55 (A = 10 … Z = 35); other characters stay. -/
def ibanNumericDigits (l : List Char) : List Char :=
  l.flatMap (fun c => if isUpperAZ c then (Nat.repr (c.toNat - 55)).data else [c])

/-- Accumulation of one decimal digit character onto a value. -/
def digitAccum (n : ℕ) (c : Char) : ℕ := n * 10 + (c.toNat - 48)

/-- Value of a (non-empty or empty) decimal digit string; none when a
non-digit appears, modelling the BigInt constructor throwing. BigInt of the
empty string is 0, matching the some 0 case. -/
def digitStrToNat? (l : List Char) : Option ℕ :=
  if l.all isDigit09 then some (l.foldl digitAccum 0) else none

/-- MOD-97 IBAN validation, embedded from the tiling service validateIBAN. -/
def validateIBAN (s : String) : Bool :=
  -- source guard: a falsy or non-string input returns false
  if s.data.isEmpty then false else
  let normalized := normIBAN s.data
  if !ibanStructOK normalized then false else
  let rearranged := normalized.drop 4 ++ normalized.take 4
  match digitStrToNat? (ibanNumericDigits rearranged) with
  | some n => decide (n % 97 = 1)
  | none => false

example : validateIBAN "SK3112000000198742637541" = true := by decide
example : validateIBAN "SK3112000000198742637540" = false := by decide
example : validateIBAN "GB82WEST12345698765432" = true := by decide
example : validateIBAN "gb82 west 1234 5698 7654 32" = true := by decide
example : validateIBAN "CZ6508000000192000145399" = true := by decide

/-! ## shouldTile (tiling service) -/

/-- Tiling decision: tile exactly when the page height exceeds 1.5 times the
configured slice height. Heights are integer pixel counts; the JavaScript
float product sliceHeight * 1.5 is exact for every representable pixel
count, so the rational comparison is the same comparison. -/
def shouldTile (height sliceHeight : ℕ) : Bool :=
  decide ((height : ℚ) > (sliceHeight : ℚ) * (3 / 2 : ℚ))

example : shouldTile 1351 900 = true := by norm_num [shouldTile]
example : shouldTile 1350 900 = false := by norm_num [shouldTile]

/-! ## Character-level facts used by the IBAN claims -/

theorem char_toNat_inj {a b : Char} (h : a.toNat = b.toNat) : a = b :=
  Char.ext (UInt32.ext h)

theorem toNat_ofNat_of_lt {n : ℕ} (h : n < 55296) : (Char.ofNat n).toNat = n := by
  have hv : n.isValidChar := Or.inl h
  simp [Char.ofNat, hv, Char.toNat, Char.ofNatAux, UInt32.toNat]

theorem jsWs_false_of_mid {c : Char} (h1 : 48 ≤ c.toNat) (h2 : c.toNat ≤ 122) :
    jsWs c = false := by
  unfold jsWs
  rw [Bool.or_eq_false_iff]
  refine ⟨?_, ?_⟩
  · rw [decide_eq_false_iff_not]
    intro hm
    simp only [List.mem_cons, List.not_mem_nil, or_false] at hm
    omega
  · rw [Bool.and_eq_false_iff]
    left
    rw [decide_eq_false_iff_not]
    omega

theorem jsToUpper_jsToLower (c : Char) : jsToUpper (jsToLower c) = jsToUpper c := by
  by_cases hu : isUpperAZ c = true
  · have hr : 65 ≤ c.toNat ∧ c.toNat ≤ 90 := by
      simpa [isUpperAZ, Bool.and_eq_true, decide_eq_true_iff] using hu
    have hlo : (Char.ofNat (c.toNat + 32)).toNat = c.toNat + 32 :=
      toNat_ofNat_of_lt (by omega)
    have h1 : jsToLower c = Char.ofNat (c.toNat + 32) := by simp [jsToLower, hu]
    have h2 : isLowerAZ (Char.ofNat (c.toNat + 32)) = true := by
      simp [isLowerAZ, hlo]; omega
    have h3 : isLowerAZ c = false := by simp [isLowerAZ]; omega
    rw [h1]
    simp only [jsToUpper, h2, h3, if_true, if_false, Bool.false_eq_true,
      if_neg (by simp [h3] : ¬ isLowerAZ c = true)]
    apply char_toNat_inj
    rw [toNat_ofNat_of_lt (by omega : (Char.ofNat (c.toNat + 32)).toNat - 32 < 55296)]
    omega
  · simp [jsToLower, hu]

theorem jsToUpper_idem (c : Char) : jsToUpper (jsToUpper c) = jsToUpper c := by
  by_cases hl : isLowerAZ c = true
  · have hr : 97 ≤ c.toNat ∧ c.toNat ≤ 122 := by
      simpa [isLowerAZ, Bool.and_eq_true, decide_eq_true_iff] using hl
    have hup : (Char.ofNat (c.toNat - 32)).toNat = c.toNat - 32 :=
      toNat_ofNat_of_lt (by omega)
    have h1 : jsToUpper c = Char.ofNat (c.toNat - 32) := by simp [jsToUpper, hl]
    have h2 : isLowerAZ (Char.ofNat (c.toNat - 32)) = false := by
      simp [isLowerAZ, hup]; omega
    rw [h1]
    simp [jsToUpper, h2]
  · simp [jsToUpper, hl]

theorem jsWs_jsToLower (c : Char) : jsWs (jsToLower c) = jsWs c := by
  by_cases hu : isUpperAZ c = true
  · have hr : 65 ≤ c.toNat ∧ c.toNat ≤ 90 := by
      simpa [isUpperAZ, Bool.and_eq_true, decide_eq_true_iff] using hu
    have hlo : (Char.ofNat (c.toNat + 32)).toNat = c.toNat + 32 :=
      toNat_ofNat_of_lt (by omega)
    have h1 : jsToLower c = Char.ofNat (c.toNat + 32) := by simp [jsToLower, hu]
    rw [h1, jsWs_false_of_mid (by omega) (by omega),
      jsWs_false_of_mid (by omega) (by omega)]
  · simp [jsToLower, hu]

theorem jsWs_jsToUpper (c : Char) : jsWs (jsToUpper c) = jsWs c := by
  by_cases hl : isLowerAZ c = true
  · have hr : 97 ≤ c.toNat ∧ c.toNat ≤ 122 := by
      simpa [isLowerAZ, Bool.and_eq_true, decide_eq_true_iff] using hl
    have hup : (Char.ofNat (c.toNat - 32)).toNat = c.toNat - 32 :=
      toNat_ofNat_of_lt (by omega)
    have h1 : jsToUpper c = Char.ofNat (c.toNat - 32) := by simp [jsToUpper, hl]
    rw [h1, jsWs_false_of_mid (by omega) (by omega),
      jsWs_false_of_mid (by omega) (by omega)]
  · simp [jsToUpper, hl]

theorem filter_map_comm {α β} (f : α → β) (p : β → Bool) (l : List α) :
    (l.map f).filter p = (l.filter (fun a => p (f a))).map f := by
  induction l with
  | nil => rfl
  | cons a t ih => by_cases h : p (f a) = true <;> simp [h, ih]

/-! ## Normalisation invariance of validateIBAN -/

theorem normIBAN_insert_ws (l1 l2 : List Char) (c : Char) (h : jsWs c = true) :
    normIBAN (l1 ++ c :: l2) = normIBAN (l1 ++ l2) := by
  simp [normIBAN, stripWs, List.filter_append, h]

theorem normIBAN_lower (l : List Char) : normIBAN (jsLowerAll l) = normIBAN l := by
  unfold normIBAN stripWs jsLowerAll
  rw [filter_map_comm]
  simp only [jsWs_jsToLower, List.map_map]
  congr 1
  funext c
  exact jsToUpper_jsToLower c

theorem normIBAN_upper (l : List Char) :
    normIBAN (l.map jsToUpper) = normIBAN l := by
  unfold normIBAN stripWs
  rw [filter_map_comm]
  simp only [jsWs_jsToUpper, List.map_map]
  congr 1
  funext c
  exact jsToUpper_idem c

/-- Checksum part of validateIBAN on an already-normalised character list. -/
def ibanChecksumOK (n : List Char) : Bool :=
  match digitStrToNat? (ibanNumericDigits (n.drop 4 ++ n.take 4)) with
  | some v => decide (v % 97 = 1)
  | none => false

theorem validateIBAN_eq_norm (s : String) :
    validateIBAN s = (ibanStructOK (normIBAN s.data) && ibanChecksumOK (normIBAN s.data)) := by
  unfold validateIBAN ibanChecksumOK
  by_cases he : s.data.isEmpty = true
  · have : s.data = [] := by simpa [List.isEmpty_iff] using he
    simp [he, this, normIBAN, stripWs, ibanStructOK]
  · simp only [he, if_false, Bool.false_eq_true]
    by_cases hs : ibanStructOK (normIBAN s.data) = true
    · simp [hs]
    · rw [Bool.not_eq_true] at hs
      simp [hs]

/-! ## Spec-side value of the rearranged IBAN (claim C5) -/

/-- Spec-side accumulation: an uppercase letter contributes its two-digit
code 10..35, a digit contributes itself. -/
def ibanCodeStep (n : ℕ) (c : Char) : ℕ :=
  if isUpperAZ c then n * 100 + (c.toNat - 55) else digitAccum n c

/-- Spec-side integer value of a rearranged IBAN: the decimal number read off
after replacing each letter by its code. -/
def ibanSpecValue (l : List Char) : ℕ := l.foldl ibanCodeStep 0

theorem foldl_digitAccum_shift (l : List Char) : ∀ n : ℕ,
    l.foldl digitAccum n = n * 10 ^ l.length + l.foldl digitAccum 0 := by
  induction l with
  | nil => intro n; simp
  | cons c t ih =>
      intro n
      simp only [List.foldl_cons, List.length_cons]
      rw [ih (digitAccum n c), ih (digitAccum 0 c)]
      simp only [digitAccum]
      ring

theorem repr_code_facts : ∀ m : ℕ, 10 ≤ m → m ≤ 35 →
    ((Nat.repr m).data.all isDigit09 = true ∧ (Nat.repr m).data.length = 2 ∧
     (Nat.repr m).data.foldl digitAccum 0 = m) := by
  intro m h1 h2
  interval_cases m <;> exact ⟨by decide, by decide, by decide⟩

theorem numericDigits_eval (l : List Char)
    (h : l.all (fun c => isUpperAZ c || isDigit09 c) = true) :
    (ibanNumericDigits l).all isDigit09 = true ∧
    ∀ n : ℕ, (ibanNumericDigits l).foldl digitAccum n = l.foldl ibanCodeStep n := by
  induction l with
  | nil => exact ⟨rfl, fun _ => rfl⟩
  | cons c t ih =>
      simp only [List.all_cons, Bool.and_eq_true] at h
      obtain ⟨hc, ht⟩ := h
      obtain ⟨iha, ihf⟩ := ih ht
      have hsplit : ibanNumericDigits (c :: t) =
          (if isUpperAZ c then (Nat.repr (c.toNat - 55)).data else [c]) ++
            ibanNumericDigits t := by
        simp [ibanNumericDigits]
      by_cases hu : isUpperAZ c = true
      · have hrange : 65 ≤ c.toNat ∧ c.toNat ≤ 90 := by
          simpa [isUpperAZ, Bool.and_eq_true, decide_eq_true_iff] using hu
        obtain ⟨ha, hl2, hv⟩ := repr_code_facts (c.toNat - 55) (by omega) (by omega)
        constructor
        · rw [hsplit, if_pos hu]
          simp [List.all_append, ha, iha]
        · intro n
          rw [hsplit, if_pos hu, List.foldl_append, ihf,
            foldl_digitAccum_shift, hl2, hv]
          simp only [List.foldl_cons, ibanCodeStep, hu, if_pos]
          norm_num
      · constructor
        · rw [hsplit, if_neg hu]
          simp only [List.all_append, List.all_cons, List.all_nil,
            Bool.and_eq_true, iha, and_true]
          have : isUpperAZ c || isDigit09 c := hc
          simp [hu] at this
          simp [this]
        · intro n
          rw [hsplit, if_neg hu]
          simp only [List.foldl_append, List.foldl_cons, List.foldl_nil, ihf]
          simp [ibanCodeStep, hu]

theorem structOK_all_alnum {l : List Char} (h : ibanStructOK l = true) :
    l.all (fun c => isUpperAZ c || isDigit09 c) = true := by
  match l with
  | c0 :: c1 :: c2 :: c3 :: rest =>
      simp only [ibanStructOK, Bool.and_eq_true] at h
      obtain ⟨⟨⟨⟨⟨⟨h0, h1⟩, h2⟩, h3⟩, hrest⟩, _⟩, _⟩ := h
      simp [List.all_cons, h0, h1, h2, h3, hrest]
  | [] => simp [ibanStructOK] at h
  | [_] => simp [ibanStructOK] at h
  | [_, _] => simp [ibanStructOK] at h
  | [_, _, _] => simp [ibanStructOK] at h

/-- Claim C5. The IBAN validator accepts exactly the strings whose
whitespace-stripped upper-cased form matches the structural shape two
uppercase letters, two digits, then 11 to 30 alphanumerics, and whose
rearranged letter-substituted decimal value is congruent to 1 mod 97;
consequently the verdict is unchanged by inserting a whitespace character
anywhere and by lower-casing or upper-casing the input. -/
theorem validateIBAN_characterization :
    (∀ s : String, validateIBAN s = true ↔
      (ibanStructOK (normIBAN s.data) = true ∧
       ibanSpecValue ((normIBAN s.data).drop 4 ++ (normIBAN s.data).take 4) % 97 = 1)) ∧
    (∀ (l1 l2 : List Char) (c : Char), jsWs c = true →
      validateIBAN (String.mk (l1 ++ c :: l2)) = validateIBAN (String.mk (l1 ++ l2))) ∧
    (∀ s : String,
      validateIBAN (String.mk (jsLowerAll s.data)) = validateIBAN s ∧
      validateIBAN (String.mk (s.data.map jsToUpper)) = validateIBAN s) := by
  have hchk : ∀ n : List Char, ibanStructOK n = true →
      (ibanChecksumOK n = decide (ibanSpecValue (n.drop 4 ++ n.take 4) % 97 = 1)) := by
    intro n hs
    have halnum : (n.drop 4 ++ n.take 4).all (fun c => isUpperAZ c || isDigit09 c) = true := by
      have := structOK_all_alnum hs
      simp only [List.all_eq_true] at this ⊢
      intro c hc
      rcases List.mem_append.mp hc with h | h
      · exact this c (List.mem_of_mem_drop h)
      · exact this c (List.mem_of_mem_take h)
    obtain ⟨hall, hfold⟩ := numericDigits_eval _ halnum
    unfold ibanChecksumOK digitStrToNat?
    rw [if_pos hall, hfold 0]
    rfl
  refine ⟨?_, ?_, ?_⟩
  · intro s
    rw [validateIBAN_eq_norm]
    constructor
    · intro h
      rw [Bool.and_eq_true] at h
      obtain ⟨h1, h2⟩ := h
      rw [hchk _ h1] at h2
      exact ⟨h1, of_decide_eq_true h2⟩
    · intro ⟨h1, h2⟩
      rw [Bool.and_eq_true, hchk _ h1]
      exact ⟨h1, decide_eq_true h2⟩
  · intro l1 l2 c h
    rw [validateIBAN_eq_norm, validateIBAN_eq_norm]
    simp only [normIBAN_insert_ws l1 l2 c h]
  · intro s
    constructor
    · rw [validateIBAN_eq_norm, validateIBAN_eq_norm]
      simp only [normIBAN_lower]
    · rw [validateIBAN_eq_norm, validateIBAN_eq_norm]
      simp only [normIBAN_upper]

/-- Witness for C5: the whitespace-insertion clause applied at a concrete
input, with the hypothesis discharged concretely. -/
theorem validateIBAN_characterization_witness :
    jsWs ' ' = true ∧
    validateIBAN (String.mk ([] ++ ' ' :: "GB82WEST12345698765432".data)) =
      validateIBAN (String.mk ([] ++ "GB82WEST12345698765432".data)) :=
  ⟨by decide, validateIBAN_characterization.2.1 [] "GB82WEST12345698765432".data ' ' (by decide)⟩

/-- Claim C9. A page is tiled exactly when its height strictly exceeds 1.5
times the slice height; a height of exactly 1.5 times the slice height is
not tiled and one more pixel is. -/
theorem shouldTile_boundary :
    (∀ height sliceHeight : ℕ,
      shouldTile height sliceHeight = true ↔ (height : ℚ) > (3 / 2 : ℚ) * sliceHeight) ∧
    (∀ k : ℕ, shouldTile (3 * k) (2 * k) = false ∧ shouldTile (3 * k + 1) (2 * k) = true) := by
  constructor
  · intro h s
    unfold shouldTile
    rw [decide_eq_true_iff]
    constructor <;> intro hx <;> linarith [hx]
  · intro k
    constructor
    · unfold shouldTile
      rw [decide_eq_false_iff_not]
      push_cast
      intro hx
      linarith
    · unfold shouldTile
      rw [decide_eq_true_iff]
      push_cast
      linarith

/-! ## JSON row model

Rows returned by the model are JSON objects; the pipeline reads a handful
of scalar fields from them. A row is an association list from field names
to a small scalar value type (string, number, boolean); lookups take the
first binding, and property writes update the first binding in place or
append, matching JavaScript object semantics. -/

inductive Val where
  | str (s : String)
  | nat (n : ℕ)
  | bool (b : Bool)
deriving DecidableEq, Repr

/-- JavaScript truthiness of a scalar value. -/
def valTruthy : Val → Bool
  | .str s => !s.isEmpty
  | .nat n => decide (n ≠ 0)
  | .bool b => b

/-- JavaScript String() coercion of a scalar value. -/
def valToString : Val → String
  | .str s => s
  | .nat n => Nat.repr n
  | .bool b => if b then "true" else "false"

/-- Row object: association list of fields. -/
abbrev Row := List (String × Val)

/-- Property read, first binding wins. -/
def rowGet : Row → String → Option Val
  | [], _ => none
  | (k, v) :: t, f => if k = f then some v else rowGet t f

/-- Property write: update the first binding in place, else append. -/
def rowSet : Row → String → Val → Row
  | [], f, v => [(f, v)]
  | (k, w) :: t, f, v => if k = f then (f, v) :: t else (k, w) :: rowSet t f v

/-- Truthiness of a property. -/
def rowTruthy (r : Row) (f : String) : Bool :=
  match rowGet r f with
  | some v => valTruthy v
  | none => false

/-- The JavaScript expression String(row[field] || ''): the empty string for
a missing or falsy property, its String() coercion otherwise. -/
def getFieldStr (r : Row) (f : String) : String :=
  match rowGet r f with
  | some v => if valTruthy v then valToString v else ""
  | none => ""

/-- IBAN validation applied to a raw property value; a missing or non-string
value fails the typeof guard of validateIBAN. -/
def validateIBANval : Option Val → Bool
  | some (.str s) => validateIBAN s
  | _ => false

/-! ## normalizeIBAN and calculateSimilarity (tiling service) -/

/-- Source normalizeIBAN: whitespace removed and upper-cased, paired with
the core digits, everything after the first 4 characters restricted to
digits. A missing or non-string value yields a pair of empty strings. -/
def normalizeIBANv : Option Val → String × String
  | some (.str s) =>
      if s.isEmpty then ("", "")
      else
        let normalized := normIBAN s.data
        (String.mk normalized, String.mk ((normalized.drop 4).filter isDigit09))
  | _ => ("", "")

/-- Count of positions at which the two lists agree (up to the shorter
length). -/
def matchCount : List Char → List Char → ℕ
  | a :: as, b :: bs => (if a = b then 1 else 0) + matchCount as bs
  | _, _ => 0

/-- Source calculateSimilarity: 0 when either string is empty, 1 when equal,
otherwise position-wise matches divided by the longer length. -/
def calculateSimilarity (s1 s2 : String) : ℚ :=
  if s1 = "" ∨ s2 = "" then 0
  else if s1 = s2 then 1
  else (matchCount s1.data s2.data : ℚ) / ((max s1.data.length s2.data.length : ℕ) : ℚ)

/-- Executable form of the comparison similarity > 0.8 used by the dedup
step. The JavaScript float comparison matches/longer > 0.8 agrees with the
exact rational comparison at these magnitudes (the gap between m/L and 4/5
is at least 1/(5 L), far above double rounding error), which the lemma
below records. -/
def similarityGt08 (s1 s2 : String) : Bool :=
  if s1 = "" || s2 = "" then false
  else if s1 = s2 then true
  else decide (4 * max s1.data.length s2.data.length < 5 * matchCount s1.data s2.data)

theorem similarityGt08_eq (s1 s2 : String) :
    similarityGt08 s1 s2 = decide ((4 / 5 : ℚ) < calculateSimilarity s1 s2) := by
  by_cases h1 : s1 = ""
  · simp [similarityGt08, calculateSimilarity, h1]
    norm_num
  · by_cases h2 : s2 = ""
    · simp [similarityGt08, calculateSimilarity, h1, h2]
      norm_num
    · by_cases h12 : s1 = s2
      · simp [similarityGt08, calculateSimilarity, h1, h2, h12]
        norm_num
      · have hlen : 0 < s1.data.length := by
          rcases s1 with ⟨l⟩
          cases l with
          | nil => exact absurd rfl h1
          | cons a t => simp
        have hL : 0 < max s1.data.length s2.data.length := by omega
        have hiff : ((4 / 5 : ℚ) < calculateSimilarity s1 s2) ↔
            (4 * max s1.data.length s2.data.length < 5 * matchCount s1.data s2.data) := by
          unfold calculateSimilarity
          rw [if_neg (by tauto), if_neg h12,
            div_lt_div_iff₀ (by norm_num) (by exact_mod_cast hL)]
          constructor <;> intro h
          · have hc : 4 * max s1.data.length s2.data.length <
                matchCount s1.data s2.data * 5 := by exact_mod_cast h
            omega
          · exact_mod_cast (by omega :
              4 * max s1.data.length s2.data.length < matchCount s1.data s2.data * 5)
        calc similarityGt08 s1 s2
            = decide (4 * max s1.data.length s2.data.length <
                5 * matchCount s1.data s2.data) := by
              simp [similarityGt08, h1, h2, h12]
          _ = decide ((4 / 5 : ℚ) < calculateSimilarity s1 s2) := by
              rw [decide_eq_decide]
              exact hiff.symm

/-! ## deduplicateRows (tiling service, smart-dedup variant)

The embedded function is the smart-dedup variant: composite key per document
type, first occurrence wins, and for drawdown a later duplicate row whose
IBAN is more than 80 percent similar to the stored one replaces it exactly
when the new IBAN passes MOD-97 and the stored one does not. The source
walks the rows building a seen map and an insertion-order list of entries
(keyless rows are stored directly, keyed rows as a key placeholder) and then
rebuilds the output from the insertion order, reading each keyed entry from
the map and skipping a row object already emitted. -/

/-- Key fields per document type. -/
def keyFieldsMap (docType : String) : List String :=
  if docType = "drawdown" then ["variableSymbol", "invoiceNumber"]
  else if docType = "invoice" then ["invoiceNumber"]
  else if docType = "bankStatement" then ["date", "description", "amount"]
  else if docType = "loanContract" then ["contractNumber"]
  else []

/-- One key part: String(row[field] || '').trim().toLowerCase(). -/
def keyFieldNorm (r : Row) (f : String) : String :=
  String.mk (jsLowerAll (jsTrim (getFieldStr r f).data))

/-- Non-empty key parts of a row. -/
def rowKeyParts (fields : List String) (r : Row) : List String :=
  (fields.map (keyFieldNorm r)).filter (fun v => !v.isEmpty)

/-- Composite key: none when every part is empty, else parts joined with
the bar separator. -/
def rowKey (fields : List String) (r : Row) : Option String :=
  let ps := rowKeyParts fields r
  if ps.isEmpty then none else some (String.intercalate "|" ps)

/-- Condition under which the source replaces the stored drawdown row by the
new duplicate: both rows carry truthy ibans, the core digits are more than
80 percent similar, and the new IBAN validates while the stored one does
not. -/
def promoteCond (docType : String) (newRow existing : Row) : Bool :=
  if docType = "drawdown" && rowTruthy newRow "iban" && rowTruthy existing "iban" then
    let newIban := normalizeIBANv (rowGet newRow "iban")
    let existingIban := normalizeIBANv (rowGet existing "iban")
    if similarityGt08 newIban.2 existingIban.2 then
      validateIBANval (rowGet newRow "iban") && !validateIBANval (rowGet existing "iban")
    else false
  else false

/-- Entry of the insertion-order list: a keyless row stored directly, or a
key placeholder to be resolved from the seen map. -/
inductive OrderEntry where
  | keyless (r : Row)
  | keyed (k : String)
deriving DecidableEq

/-- State of the dedup walk. -/
structure DedupState where
  seen : List (String × Row)
  order : List OrderEntry

/-- Lookup in the seen map, first binding wins. -/
def seenLookup : List (String × Row) → String → Option Row
  | [], _ => none
  | (k, r) :: t, q => if k = q then some r else seenLookup t q

/-- Map.set: replace the first binding of the key in place, else append. -/
def seenSet : List (String × Row) → String → Row → List (String × Row)
  | [], k, r => [(k, r)]
  | (k0, r0) :: t, k, r => if k0 = k then (k, r) :: t else (k0, r0) :: seenSet t k r

/-- One step of the dedup walk over a row. -/
def dedupStep (docType : String) (st : DedupState) (row : Row) : DedupState :=
  match rowKey (keyFieldsMap docType) row with
  | none => { st with order := st.order ++ [.keyless row] }
  | some k =>
      match seenLookup st.seen k with
      | none => { seen := seenSet st.seen k row, order := st.order ++ [.keyed k] }
      | some existing =>
          if promoteCond docType row existing then
            { st with seen := seenSet st.seen k row }
          else st

/-- Rebuild of the output from the insertion order: keyless entries are
emitted directly; a keyed entry emits the row stored in the map unless that
row object was already emitted. -/
def dedupResolve (seen : List (String × Row)) : List OrderEntry → List Row → List Row
  | [], acc => acc
  | .keyless r :: t, acc => dedupResolve seen t (acc ++ [r])
  | .keyed k :: t, acc =>
      match seenLookup seen k with
      | some best =>
          if best ∈ acc then dedupResolve seen t acc
          else dedupResolve seen t (acc ++ [best])
      | none => dedupResolve seen t acc

/-- Deduplication of extracted rows, embedded from the smart-dedup source.
An unknown document type has no key fields and the input is returned
unchanged. -/
def deduplicateRows (rows : List Row) (docType : String) : List Row :=
  if (keyFieldsMap docType).isEmpty then rows
  else
    let st := rows.foldl (dedupStep docType) ⟨[], []⟩
    dedupResolve st.seen st.order []

/-! ## Spec-side deduplication (section 4.7 of the spec, claim C3)

The claim describes the algorithm directly on the output list: walk rows in
order; a row with an all-empty key is appended as-is; the first occurrence
of a key is appended; a later row with the same key replaces the stored row
in place by whichever of the two the promotion rule selects. -/

/-- Promotion rule written from the claim text: when both rows carry IBANs
whose position-wise character similarity over the account-body digits
exceeds 0.8, the row whose IBAN passes MOD-97 is kept, meaning a valid new
IBAN replaces an invalid old one and otherwise the first row is kept. -/
def promoteSpec (docType : String) (oldRow newRow : Row) : Row :=
  if docType = "drawdown" ∧ rowTruthy oldRow "iban" = true ∧ rowTruthy newRow "iban" = true ∧
      (4 / 5 : ℚ) < calculateSimilarity (normalizeIBANv (rowGet newRow "iban")).2
        (normalizeIBANv (rowGet oldRow "iban")).2 then
    if validateIBANval (rowGet newRow "iban") = true ∧
        validateIBANval (rowGet oldRow "iban") = false then newRow
    else oldRow
  else oldRow

/-- Replacement of the first row carrying the key by the promotion result. -/
def specUpdate (docType : String) (k : String) : List Row → Row → List Row
  | [], _ => []
  | r :: t, row =>
      if rowKey (keyFieldsMap docType) r = some k then
        promoteSpec docType r row :: t
      else r :: specUpdate docType k t row

/-- One spec-side insertion step. -/
def specInsert (docType : String) (acc : List Row) (row : Row) : List Row :=
  match rowKey (keyFieldsMap docType) row with
  | none => acc ++ [row]
  | some k =>
      if acc.any (fun r => rowKey (keyFieldsMap docType) r = some k) then
        specUpdate docType k acc row
      else acc ++ [row]

/-- Spec-side deduplication. -/
def dedupSpec (docType : String) (rows : List Row) : List Row :=
  rows.foldl (specInsert docType) []

/-! ## Equivalence of the embedded dedup walk with the spec-side algorithm -/

theorem seenLookup_set (s : List (String × Row)) (k : String) (r : Row) (q : String) :
    seenLookup (seenSet s k r) q = if q = k then some r else seenLookup s q := by
  induction s with
  | nil =>
      by_cases h : q = k <;> simp_all [seenSet, seenLookup, eq_comm]
  | cons p t ih =>
      obtain ⟨k0, r0⟩ := p
      by_cases h0 : k0 = k <;> by_cases hq : k0 = q <;>
        simp_all [seenSet, seenLookup, eq_comm]

theorem seenSet_self {s : List (String × Row)} {k : String} {r : Row}
    (h : seenLookup s k = some r) : seenSet s k r = s := by
  induction s with
  | nil => simp [seenLookup] at h
  | cons p t ih =>
      obtain ⟨k0, r0⟩ := p
      by_cases h0 : k0 = k
      · subst h0
        simp only [seenLookup, if_true, eq_self_iff_true] at h
        simp only [seenSet, if_true, eq_self_iff_true]
        rw [(Option.some_inj.mp h : r0 = r)]
      · simp only [seenLookup, if_neg h0] at h
        simp [seenSet, h0, ih h]

theorem promoteSpec_cases (dt : String) (a b : Row) :
    promoteSpec dt a b = a ∨ promoteSpec dt a b = b := by
  unfold promoteSpec
  split
  · split
    · right; rfl
    · left; rfl
  · left; rfl

theorem promoteSpec_eq_cond (dt : String) (ex row : Row) :
    promoteSpec dt ex row = (if promoteCond dt row ex = true then row else ex) := by
  by_cases hdt : dt = "drawdown" <;>
  by_cases htn : rowTruthy row "iban" = true <;>
  by_cases hte : rowTruthy ex "iban" = true <;>
  by_cases hsim : (4 / 5 : ℚ) < calculateSimilarity
      (normalizeIBANv (rowGet row "iban")).2 (normalizeIBANv (rowGet ex "iban")).2 <;>
  by_cases hv1 : validateIBANval (rowGet row "iban") = true <;>
  by_cases hv2 : validateIBANval (rowGet ex "iban") = true <;>
  simp_all [promoteSpec, promoteCond, similarityGt08_eq]

/-- Keys of the keyed entries of the insertion order, in order. -/
def orderKeys (o : List OrderEntry) : List String :=
  o.filterMap (fun e => match e with | .keyless _ => none | .keyed k => some k)

@[simp] theorem orderKeys_nil : orderKeys [] = [] := rfl

@[simp] theorem orderKeys_cons_keyless (r : Row) (o : List OrderEntry) :
    orderKeys (OrderEntry.keyless r :: o) = orderKeys o := rfl

@[simp] theorem orderKeys_cons_keyed (k : String) (o : List OrderEntry) :
    orderKeys (OrderEntry.keyed k :: o) = k :: orderKeys o := rfl

/-- Correspondence between the dedup walk state (insertion order plus seen
map) and the spec-side output list built so far: entries and rows match up
pointwise, keyless entries carrying the row itself and keyed entries
resolving through the map. -/
inductive Corr (dt : String) (seen : List (String × Row)) :
    List OrderEntry → List Row → Prop where
  | nil : Corr dt seen [] []
  | keyless {o a} (r : Row) (hk : rowKey (keyFieldsMap dt) r = none)
      (h : Corr dt seen o a) : Corr dt seen (OrderEntry.keyless r :: o) (r :: a)
  | keyed {o a} (k : String) (r : Row) (hk : rowKey (keyFieldsMap dt) r = some k)
      (hl : seenLookup seen k = some r) (h : Corr dt seen o a) :
      Corr dt seen (OrderEntry.keyed k :: o) (r :: a)

theorem Corr.append_keyless {dt seen o a} (h : Corr dt seen o a) (r : Row)
    (hk : rowKey (keyFieldsMap dt) r = none) :
    Corr dt seen (o ++ [OrderEntry.keyless r]) (a ++ [r]) := by
  induction h with
  | nil => exact Corr.keyless r hk Corr.nil
  | keyless r' hk' _ ih => exact Corr.keyless r' hk' ih
  | keyed k' r' hk' hl' _ ih => exact Corr.keyed k' r' hk' hl' ih

theorem Corr.append_keyed {dt seen o a} (h : Corr dt seen o a) (k : String) (r : Row)
    (hk : rowKey (keyFieldsMap dt) r = some k) (hl : seenLookup seen k = some r) :
    Corr dt seen (o ++ [OrderEntry.keyed k]) (a ++ [r]) := by
  induction h with
  | nil => exact Corr.keyed k r hk hl Corr.nil
  | keyless r' hk' _ ih => exact Corr.keyless r' hk' ih
  | keyed k' r' hk' hl' _ ih => exact Corr.keyed k' r' hk' hl' ih

theorem Corr.mono_seen {dt seen seen2 o a} (h : Corr dt seen o a)
    (hs : ∀ k, k ∈ orderKeys o → seenLookup seen2 k = seenLookup seen k) :
    Corr dt seen2 o a := by
  induction h with
  | nil => exact Corr.nil
  | keyless r hk _ ih =>
      exact Corr.keyless r hk (ih (fun k hk2 => hs k (by simpa using hk2)))
  | keyed k r hk hl _ ih =>
      refine Corr.keyed k r hk ?_ (ih (fun q hq => hs q (by simp [hq])))
      rw [hs k (by simp)]
      exact hl

theorem Corr.key_of_mem {dt seen o a} (h : Corr dt seen o a) {r : Row} {k : String}
    (hr : r ∈ a) (hk : rowKey (keyFieldsMap dt) r = some k) : k ∈ orderKeys o := by
  induction h with
  | nil => cases hr
  | keyless r' hk' _ ih =>
      rcases List.mem_cons.mp hr with he | hr'
      · subst he; rw [hk'] at hk; cases hk
      · simpa using ih hr'
  | keyed k' r' hk' _ _ ih =>
      rcases List.mem_cons.mp hr with he | hr'
      · subst he
        rw [hk'] at hk
        injection hk with hkk
        simp [hkk]
      · simp [ih hr']

theorem Corr.row_of_key {dt seen o a} (h : Corr dt seen o a) {k : String}
    (hk : k ∈ orderKeys o) :
    ∃ r, r ∈ a ∧ rowKey (keyFieldsMap dt) r = some k ∧ seenLookup seen k = some r := by
  induction h with
  | nil => simp [orderKeys] at hk
  | keyless r' _ _ ih =>
      simp only [orderKeys_cons_keyless] at hk
      obtain ⟨r, hr, hk2, hl2⟩ := ih hk
      exact ⟨r, List.mem_cons_of_mem _ hr, hk2, hl2⟩
  | keyed k' r' hk' hl' _ ih =>
      simp only [orderKeys_cons_keyed, List.mem_cons] at hk
      rcases hk with he | hk2
      · subst he
        exact ⟨r', List.mem_cons_self _ _, hk', hl'⟩
      · obtain ⟨r, hr, hk2', hl2⟩ := ih hk2
        exact ⟨r, List.mem_cons_of_mem _ hr, hk2', hl2⟩

theorem Corr.promote {dt seen o a} (hc : Corr dt seen o a) :
    ∀ {k : String} {row ex : Row}, (orderKeys o).Nodup → k ∈ orderKeys o →
    seenLookup seen k = some ex → rowKey (keyFieldsMap dt) row = some k →
    Corr dt (seenSet seen k (promoteSpec dt ex row)) o (specUpdate dt k a row) := by
  induction hc with
  | nil =>
      intro k row ex _ hmem _ _
      simp [orderKeys] at hmem
  | @keyless o a r hk _ ih =>
      intro k row ex hnd hmem hex hkrow
      have hne : ¬ rowKey (keyFieldsMap dt) r = some k := by rw [hk]; simp
      simp only [specUpdate, if_neg hne]
      exact Corr.keyless r hk (ih (by simpa using hnd) (by simpa using hmem) hex hkrow)
  | @keyed o a k' r hk hl h ih =>
      intro k row ex hnd hmem hex hkrow
      simp only [orderKeys_cons_keyed, List.nodup_cons] at hnd
      obtain ⟨hknotin, hnd'⟩ := hnd
      by_cases hkk : k' = k
      · subst hkk
        have hre : r = ex := by rw [hl] at hex; exact Option.some_inj.mp hex
        subst hre
        simp only [specUpdate, if_pos hk]
        refine Corr.keyed k' (promoteSpec dt r row) ?_ ?_ ?_
        · rcases promoteSpec_cases dt r row with hpe | hpe <;> rw [hpe] <;> assumption
        · rw [seenLookup_set]; simp
        · exact h.mono_seen (fun q hq => by
            rw [seenLookup_set, if_neg (fun hqk : q = k' => hknotin (hqk ▸ hq))])
      · have hmem' : k ∈ orderKeys o :=
          (List.mem_cons.mp (by simpa using hmem)).resolve_left
            (fun he => hkk he.symm)
        have hne : ¬ rowKey (keyFieldsMap dt) r = some k := by
          rw [hk]
          exact fun hcon => hkk (Option.some_inj.mp hcon)
        simp only [specUpdate, if_neg hne]
        refine Corr.keyed k' r hk ?_ (ih hnd' hmem' hex hkrow)
        rw [seenLookup_set, if_neg hkk]
        exact hl

theorem dedupResolve_corr {dt seen o a} (hc : Corr dt seen o a) :
    ∀ done : List Row, (orderKeys o).Nodup →
    (∀ r, r ∈ a → (∃ k0, rowKey (keyFieldsMap dt) r = some k0) → r ∉ done) →
    dedupResolve seen o done = done ++ a := by
  induction hc with
  | nil =>
      intro done _ _
      simp [dedupResolve]
  | @keyless o a r hk h ih =>
      intro done hnd hdis
      have hdis2 : ∀ r', r' ∈ a → (∃ k0, rowKey (keyFieldsMap dt) r' = some k0) →
          r' ∉ done ++ [r] := by
        intro r' hr' hkey hmem
        rcases List.mem_append.mp hmem with hm | hm
        · exact hdis r' (List.mem_cons_of_mem _ hr') hkey hm
        · obtain ⟨k0, hk0⟩ := hkey
          simp only [List.mem_singleton] at hm
          subst hm
          rw [hk] at hk0
          cases hk0
      have h1 := ih (done ++ [r]) (by simpa using hnd) hdis2
      simp only [dedupResolve, h1, List.append_assoc, List.singleton_append]
  | @keyed o a k r hk hl h ih =>
      intro done hnd hdis
      have hnotin : r ∉ done := hdis r (List.mem_cons_self _ _) ⟨k, hk⟩
      simp only [orderKeys_cons_keyed, List.nodup_cons] at hnd
      obtain ⟨hknotin, hnd'⟩ := hnd
      have hdis2 : ∀ r', r' ∈ a → (∃ k0, rowKey (keyFieldsMap dt) r' = some k0) →
          r' ∉ done ++ [r] := by
        intro r' hr' hkey hmem
        rcases List.mem_append.mp hmem with hm | hm
        · exact hdis r' (List.mem_cons_of_mem _ hr') hkey hm
        · obtain ⟨k0, hk0⟩ := hkey
          simp only [List.mem_singleton] at hm
          subst hm
          have : k0 = k := by
            rw [hk] at hk0
            exact (Option.some_inj.mp hk0).symm
          subst this
          exact hknotin (h.key_of_mem hr' hk0)
      have h1 := ih (done ++ [r]) hnd' hdis2
      simp only [dedupResolve, hl, if_neg hnotin, h1, List.append_assoc,
        List.singleton_append]

@[simp] theorem orderKeys_append (o1 o2 : List OrderEntry) :
    orderKeys (o1 ++ o2) = orderKeys o1 ++ orderKeys o2 :=
  List.filterMap_append _ _ _

/-- Invariant carried along the dedup walk: the state corresponds to the
spec-side output, the seen map holds exactly the keys recorded in the
insertion order, and those keys are distinct. -/
structure DedupInv (dt : String) (st : DedupState) (acc : List Row) : Prop where
  corr : Corr dt st.seen st.order acc
  keyIff : ∀ k, k ∈ orderKeys st.order ↔ (seenLookup st.seen k).isSome = true
  nodup : (orderKeys st.order).Nodup

theorem dedupStep_inv {dt : String} {st : DedupState} {acc : List Row}
    (h : DedupInv dt st acc) (row : Row) :
    DedupInv dt (dedupStep dt st row) (specInsert dt acc row) := by
  obtain ⟨hcorr, hiff, hnd⟩ := h
  cases hrk : rowKey (keyFieldsMap dt) row with
  | none =>
      simp only [dedupStep, specInsert, hrk]
      refine ⟨hcorr.append_keyless row hrk, ?_, ?_⟩
      · intro k
        simpa using hiff k
      · simpa using hnd
  | some k =>
      cases hlk : seenLookup st.seen k with
      | none =>
          have hnotany : ¬ acc.any (fun r => rowKey (keyFieldsMap dt) r = some k) = true := by
            rw [List.any_eq_true]
            rintro ⟨r, hr, hp⟩
            have hcon : rowKey (keyFieldsMap dt) r = some k := by simpa using hp
            have hk1 := (hiff k).mp (hcorr.key_of_mem hr hcon)
            rw [hlk] at hk1
            simp at hk1
          simp only [dedupStep, specInsert, hrk, hlk]
          rw [if_neg hnotany]
          have hmono : Corr dt (seenSet st.seen k row) st.order acc :=
            hcorr.mono_seen (fun q hq => by
              rw [seenLookup_set, if_neg (fun hqk : q = k => by
                subst hqk
                have := (hiff q).mp hq
                rw [hlk] at this
                simp at this)])
          refine ⟨hmono.append_keyed k row hrk (by rw [seenLookup_set]; simp), ?_, ?_⟩
          · intro q
            by_cases hq : q = k
            · subst hq
              simp [seenLookup_set]
            · simp only [orderKeys_append, orderKeys_cons_keyed, orderKeys_nil,
                List.mem_append, List.mem_singleton, seenLookup_set, if_neg hq]
              rw [← hiff q]
              simp [hq]
          · have hknotin : k ∉ orderKeys st.order := fun hmem => by
              have := (hiff k).mp hmem
              rw [hlk] at this
              simp at this
            simp only [orderKeys_append, orderKeys_cons_keyed, orderKeys_nil]
            rw [List.nodup_append]
            exact ⟨hnd, List.nodup_singleton _, by simpa using hknotin⟩
      | some ex =>
          have hkmem : k ∈ orderKeys st.order := (hiff k).mpr (by rw [hlk]; rfl)
          have hany : acc.any (fun r => rowKey (keyFieldsMap dt) r = some k) = true := by
            obtain ⟨r, hr, hrk2, _⟩ := hcorr.row_of_key hkmem
            rw [List.any_eq_true]
            exact ⟨r, hr, by simp [hrk2]⟩
          have hcorr2 := hcorr.promote hnd hkmem hlk hrk
          have hseen : (dedupStep dt st row).seen =
              seenSet st.seen k (promoteSpec dt ex row) := by
            rw [promoteSpec_eq_cond]
            simp only [dedupStep, hrk, hlk]
            by_cases hpc : promoteCond dt row ex = true
            · rw [if_pos hpc, if_pos hpc]
            · rw [if_neg hpc, if_neg hpc, seenSet_self hlk]
          have horder : (dedupStep dt st row).order = st.order := by
            simp only [dedupStep, hrk, hlk]
            by_cases hpc : promoteCond dt row ex = true
            · rw [if_pos hpc]
            · rw [if_neg hpc]
          simp only [specInsert, hrk]
          rw [if_pos hany]
          refine ⟨?_, ?_, ?_⟩
          · rw [hseen, horder]
            exact hcorr2
          · intro q
            rw [hseen, horder, seenLookup_set]
            by_cases hq : q = k
            · subst hq
              simp [hkmem]
            · rw [if_neg hq]
              exact hiff q
          · rw [horder]
            exact hnd

theorem dedup_fold_inv (dt : String) (rows : List Row) :
    ∀ st acc, DedupInv dt st acc →
    DedupInv dt (rows.foldl (dedupStep dt) st) (rows.foldl (specInsert dt) acc) := by
  induction rows with
  | nil => exact fun _ _ h => h
  | cons r t ih => exact fun st acc h => ih _ _ (dedupStep_inv h r)

theorem dedupInv_init (dt : String) : DedupInv dt ⟨[], []⟩ [] :=
  ⟨Corr.nil, by intro k; simp [orderKeys, seenLookup], by simp [orderKeys]⟩

theorem foldl_specInsert_of_no_fields {dt : String} (hf : keyFieldsMap dt = [])
    (rows : List Row) : ∀ acc, rows.foldl (specInsert dt) acc = acc ++ rows := by
  induction rows with
  | nil => intro acc; simp
  | cons r t ih =>
      intro acc
      have hrk : rowKey (keyFieldsMap dt) r = none := by
        simp [rowKey, rowKeyParts, hf]
      simp only [List.foldl_cons, specInsert, hrk]
      rw [ih]
      simp

/-- Equivalence of the embedded deduplication with the spec-side algorithm,
for every document type. -/
theorem deduplicateRows_eq_dedupSpec (rows : List Row) (dt : String) :
    deduplicateRows rows dt = dedupSpec dt rows := by
  unfold deduplicateRows dedupSpec
  by_cases hf : (keyFieldsMap dt).isEmpty = true
  · rw [if_pos hf, foldl_specInsert_of_no_fields (List.isEmpty_iff.mp hf) rows []]
    simp
  · rw [if_neg hf]
    have hinv := dedup_fold_inv dt rows ⟨[], []⟩ [] (dedupInv_init dt)
    exact (dedupResolve_corr hinv.corr [] hinv.nodup (by simp)).trans
      (by simp) |>.trans rfl

/-- Claim C3. Drawdown deduplication keys each row on the pair
(variableSymbol, invoiceNumber), trimmed, lower-cased, empty parts dropped,
joined with a bar; rows whose key parts are all empty are kept as-is; the
first occurrence of a key wins except that a later duplicate whose IBAN is
more than 80 percent position-wise similar over the account-body digits
promotes the row whose IBAN passes MOD-97 (a valid new IBAN replaces an
invalid old one, otherwise the first row stays); rows come out in original
first-seen order. The spec-side algorithm dedupSpec is written directly
from that description and agrees with the embedded function on every
input. -/
theorem dedup_drawdown_matches_spec :
    (∀ rows : List Row, deduplicateRows rows "drawdown" = dedupSpec "drawdown" rows) ∧
    keyFieldsMap "drawdown" = ["variableSymbol", "invoiceNumber"] :=
  ⟨fun rows => deduplicateRows_eq_dedupSpec rows "drawdown", rfl⟩

/-! ## Idempotence of deduplication (claim C8) -/

/-- Distinctness of the composite keys among keyed rows of a list. -/
def RowsKeyDistinct (dt : String) (l : List Row) : Prop :=
  l.Pairwise (fun r1 r2 => ∀ k, rowKey (keyFieldsMap dt) r1 = some k →
    rowKey (keyFieldsMap dt) r2 ≠ some k)

theorem specUpdate_mem {dt : String} {k : String} {l : List Row} {row r' : Row}
    (h : r' ∈ specUpdate dt k l row) :
    r' ∈ l ∨ ∃ rOld, rOld ∈ l ∧ rowKey (keyFieldsMap dt) rOld = some k ∧
      r' = promoteSpec dt rOld row := by
  induction l with
  | nil => simp [specUpdate] at h
  | cons r t ih =>
      by_cases hc : rowKey (keyFieldsMap dt) r = some k
      · simp only [specUpdate, if_pos hc, List.mem_cons] at h
        rcases h with he | hm
        · exact Or.inr ⟨r, List.mem_cons_self _ _, hc, he⟩
        · exact Or.inl (List.mem_cons_of_mem _ hm)
      · simp only [specUpdate, if_neg hc, List.mem_cons] at h
        rcases h with he | hm
        · exact Or.inl (he ▸ List.mem_cons_self _ _)
        · rcases ih hm with h1 | ⟨rOld, hro, hko, he⟩
          · exact Or.inl (List.mem_cons_of_mem _ h1)
          · exact Or.inr ⟨rOld, List.mem_cons_of_mem _ hro, hko, he⟩

theorem specUpdate_keyDistinct {dt : String} {k : String} {l : List Row} {row : Row}
    (h : RowsKeyDistinct dt l) (hkrow : rowKey (keyFieldsMap dt) row = some k) :
    RowsKeyDistinct dt (specUpdate dt k l row) := by
  induction l with
  | nil => exact h
  | cons r t ih =>
      rcases List.pairwise_cons.mp h with ⟨hr, ht⟩
      by_cases hc : rowKey (keyFieldsMap dt) r = some k
      · simp only [specUpdate, if_pos hc]
        refine List.pairwise_cons.mpr ⟨?_, ht⟩
        intro r' hr' k0 hk0
        rcases promoteSpec_cases dt r row with hp | hp <;> rw [hp] at hk0
        · exact hr r' hr' k0 hk0
        · have hkk : k0 = k := by
            rw [hkrow] at hk0
            exact (Option.some_inj.mp hk0).symm
          rw [hkk]
          exact hr r' hr' k hc
      · simp only [specUpdate, if_neg hc]
        refine List.pairwise_cons.mpr ⟨?_, ih ht⟩
        intro r' hr' k0 hk0
        rcases specUpdate_mem hr' with hm | ⟨rOld, hro, hko, he⟩
        · exact hr r' hm k0 hk0
        · subst he
          intro hcon
          have hkey : rowKey (keyFieldsMap dt) (promoteSpec dt rOld row) = some k := by
            rcases promoteSpec_cases dt rOld row with hp | hp <;> rw [hp] <;> assumption
          rw [hkey] at hcon
          have hkk : k = k0 := Option.some_inj.mp hcon
          exact hr rOld hro k0 hk0 (hkk ▸ hko)

theorem specInsert_keyDistinct {dt : String} {acc : List Row}
    (h : RowsKeyDistinct dt acc) (row : Row) :
    RowsKeyDistinct dt (specInsert dt acc row) := by
  cases hrk : rowKey (keyFieldsMap dt) row with
  | none =>
      simp only [specInsert, hrk]
      refine List.pairwise_append.mpr ⟨h, List.pairwise_singleton _ _, ?_⟩
      intro r1 h1 r2 h2 k hk1
      simp only [List.mem_singleton] at h2
      subst h2
      rw [hrk]
      simp
  | some k =>
      by_cases hany : (acc.any (fun r => rowKey (keyFieldsMap dt) r = some k)) = true
      · simp only [specInsert, hrk]
        rw [if_pos hany]
        exact specUpdate_keyDistinct h hrk
      · simp only [specInsert, hrk]
        rw [if_neg hany]
        refine List.pairwise_append.mpr ⟨h, List.pairwise_singleton _ _, ?_⟩
        intro r1 h1 r2 h2 k0 hk1
        simp only [List.mem_singleton] at h2
        subst h2
        rw [hrk]
        intro hcon
        have hkk : k = k0 := Option.some_inj.mp hcon
        exact hany (List.any_eq_true.mpr ⟨r1, h1, by simp [hk1, hkk]⟩)

theorem dedupSpec_keyDistinct (dt : String) (rows : List Row) :
    RowsKeyDistinct dt (dedupSpec dt rows) := by
  have hgen : ∀ acc, RowsKeyDistinct dt acc →
      RowsKeyDistinct dt (rows.foldl (specInsert dt) acc) := by
    induction rows with
    | nil => exact fun _ h => h
    | cons r t ih => exact fun acc h => ih _ (specInsert_keyDistinct h r)
  exact hgen [] List.Pairwise.nil

theorem foldl_specInsert_keyDistinct {dt : String} (l : List Row) :
    ∀ acc, RowsKeyDistinct dt (acc ++ l) → l.foldl (specInsert dt) acc = acc ++ l := by
  induction l with
  | nil => intro acc _; simp
  | cons r t ih =>
      intro acc h
      have hcross : ∀ r' ∈ acc, ∀ k0, rowKey (keyFieldsMap dt) r' = some k0 →
          rowKey (keyFieldsMap dt) r ≠ some k0 := by
        intro r' hr' k0 hk0
        rcases List.pairwise_append.mp h with ⟨_, _, hx⟩
        exact hx r' hr' r (List.mem_cons_self _ _) k0 hk0
      cases hrk : rowKey (keyFieldsMap dt) r with
      | none =>
          simp only [List.foldl_cons, specInsert, hrk]
          rw [ih (acc ++ [r]) (by simpa using h)]
          simp
      | some k =>
          have hnotany : ¬ acc.any (fun r' => rowKey (keyFieldsMap dt) r' = some k) = true := by
            rw [List.any_eq_true]
            rintro ⟨r', hr', hp⟩
            exact hcross r' hr' k (by simpa using hp) hrk
          simp only [List.foldl_cons, specInsert, hrk]
          rw [if_neg hnotany, ih (acc ++ [r]) (by simpa using h)]
          simp

/-- Claim C8. Deduplication is idempotent for every document type: a second
application to its own output returns that output unchanged, including for
drawdown where the first pass may have promoted a valid IBAN. -/
theorem dedup_idempotent :
    ∀ (rows : List Row) (dt : String),
      deduplicateRows (deduplicateRows rows dt) dt = deduplicateRows rows dt := by
  intro rows dt
  rw [deduplicateRows_eq_dedupSpec, deduplicateRows_eq_dedupSpec]
  have hkd := dedupSpec_keyDistinct dt rows
  unfold dedupSpec
  exact foldl_specInsert_keyDistinct _ [] (by simpa using hkd)

example :
    deduplicateRows
      [[("variableSymbol", Val.str "77"), ("invoiceNumber", Val.str "F1"),
        ("iban", Val.str "SK3112000000198742637540")],
       [("variableSymbol", Val.str "77"), ("invoiceNumber", Val.str "F1"),
        ("iban", Val.str "SK3112000000198742637541")]] "drawdown" =
      [[("variableSymbol", Val.str "77"), ("invoiceNumber", Val.str "F1"),
        ("iban", Val.str "SK3112000000198742637541")]] := by decide

example :
    deduplicateRows
      [[("variableSymbol", Val.str "77"), ("invoiceNumber", Val.str "F1"),
        ("iban", Val.str "SK3112000000198742637541")],
       [("variableSymbol", Val.str "77"), ("invoiceNumber", Val.str "F1"),
        ("iban", Val.str "CZ6508000000192000145399")]] "drawdown" =
      [[("variableSymbol", Val.str "77"), ("invoiceNumber", Val.str "F1"),
        ("iban", Val.str "SK3112000000198742637541")]] := by decide

/-! ## aggregateResults (tiling service) and claim C2

The aggregation merges per-tile extraction results. A result object is a
record of scalar fields, array fields, and the numeric totalSum field kept
apart because it is the one numeric top-level field the pipeline computes.
The embedded function mirrors the source: an empty input yields an empty
object, a single result is returned unchanged, and otherwise the array
fields are concatenated, deduplicated, and for drawdown totalSum is
overwritten with the rounded sum of the amounts. -/

/-- Association-list read, first binding wins. -/
def assocGet {α : Type} : List (String × α) → String → Option α
  | [], _ => none
  | (k, v) :: t, f => if k = f then some v else assocGet t f

/-- Association-list write, first binding replaced in place, else append. -/
def assocSet {α : Type} : List (String × α) → String → α → List (String × α)
  | [], f, v => [(f, v)]
  | (k, w) :: t, f, v => if k = f then (f, v) :: t else (k, w) :: assocSet t f v

/-- Result object of one extraction: scalar fields, array fields, and the
numeric totalSum property. -/
structure DocResult where
  scalars : List (String × Val)
  arrays : List (String × List Row)
  totalSum : Option ℚ
deriving DecidableEq

/-- Document type to array field name; loanContract and unknown types have
none. -/
def arrayFieldMap (docType : String) : Option String :=
  if docType = "drawdown" then some "drawdowns"
  else if docType = "invoice" then some "invoiceRows"
  else if docType = "bankStatement" then some "transactions"
  else none

/-- Object spread of two association lists: keys of the first in order with
values overridden by the second, then new keys of the second appended. -/
def spreadMerge {α : Type} (a b : List (String × α)) : List (String × α) :=
  a.map (fun kv => (kv.1, (assocGet b kv.1).getD kv.2)) ++
  b.filter (fun kv => (assocGet a kv.1).isNone)

/-- Spread of two result objects, the second overriding the first. -/
def mergeDocResult (a b : DocResult) : DocResult :=
  { scalars := spreadMerge a.scalars b.scalars,
    arrays := spreadMerge a.arrays b.arrays,
    totalSum := match b.totalSum with | some t => some t | none => a.totalSum }

/-- Decimal value of a digit list. -/
def digitsVal (l : List Char) : ℕ := l.foldl digitAccum 0

/-- Exponent digits: zero when no digit follows, as parseFloat stops before
an exponent marker without digits. -/
def expValOf (sgnE : ℤ) (u : List Char) : ℤ :=
  let d := u.takeWhile isDigit09
  if d.isEmpty then 0 else sgnE * (digitsVal d : ℤ)

/-- Parsed components of a decimal literal: sign, integer part, fraction
digits with their count, exponent. -/
structure FloatParts where
  neg : Bool
  intVal : ℕ
  fracVal : ℕ
  fracLen : ℕ
  exp : ℤ
deriving DecidableEq

/-- Prefix parse of a decimal number, modelling parseFloat: leading
whitespace skipped, optional sign, digits with optional fraction and
optional exponent; none when no digit is found (parseFloat returns NaN).
The special Infinity and NaN literals are outside this model. -/
def jsParseFloatParts (s : String) : Option FloatParts :=
  let l := s.data.dropWhile jsWs
  let signAndRest : Bool × List Char :=
    match l with
    | '-' :: t => (true, t)
    | '+' :: t => (false, t)
    | _ => (false, l)
  let neg := signAndRest.1
  let l1 := signAndRest.2
  let intPart := l1.takeWhile isDigit09
  let l2 := l1.dropWhile isDigit09
  let fracAndRest : List Char × List Char :=
    match l2 with
    | '.' :: t => (t.takeWhile isDigit09, t.dropWhile isDigit09)
    | _ => ([], l2)
  let fracPart := fracAndRest.1
  let l3 := fracAndRest.2
  if intPart.isEmpty && fracPart.isEmpty then none
  else
    let expVal : ℤ :=
      match l3 with
      | 'e' :: '-' :: u => expValOf (-1) u
      | 'e' :: '+' :: u => expValOf 1 u
      | 'e' :: u => expValOf 1 u
      | 'E' :: '-' :: u => expValOf (-1) u
      | 'E' :: '+' :: u => expValOf 1 u
      | 'E' :: u => expValOf 1 u
      | _ => 0
    some ⟨neg, digitsVal intPart, digitsVal fracPart, fracPart.length, expVal⟩

/-- Rational value of parsed components. -/
def ratOfParts (p : FloatParts) : ℚ :=
  (if p.neg then -1 else 1) *
    ((p.intVal : ℚ) + (p.fracVal : ℚ) / (10 : ℚ) ^ p.fracLen) * (10 : ℚ) ^ p.exp

/-- Prefix parse of a decimal number as a rational. -/
def jsParseFloat? (s : String) : Option ℚ := (jsParseFloatParts s).map ratOfParts

example : jsParseFloatParts "5" = some ⟨false, 5, 0, 0, 0⟩ := by decide
example : jsParseFloatParts "1 234,56" = some ⟨false, 1, 0, 0, 0⟩ := by decide
example : jsParseFloatParts "-12.50e1" = some ⟨true, 12, 50, 2, 1⟩ := by decide
example : jsParseFloatParts "abc" = none := by decide

/-- The source expression parseFloat(item.amount) || 0: a missing property
parses as NaN and contributes zero; a parsed zero is falsy and also
contributes zero, the same value. -/
def parseAmount (r : Row) : ℚ :=
  match rowGet r "amount" with
  | some v => (jsParseFloat? (valToString v)).getD 0
  | none => 0

/-- Running sum of the amounts, as the source reduce. -/
def sumAmounts (rows : List Row) : ℚ := rows.foldl (fun s r => s + parseAmount r) 0

/-- Rounding to 2 decimals: Math.round(x * 100) / 100, with Math.round
rounding half toward positive infinity. -/
def round2 (q : ℚ) : ℚ := ((⌊q * 100 + 1 / 2⌋ : ℤ) : ℚ) / 100

/-- Concatenation of one array field across results, in order. -/
def collectArrayItems (results : List DocResult) (f : String) : List Row :=
  results.foldl
    (fun acc r => match assocGet r.arrays f with
      | some items => acc ++ items
      | none => acc) []

/-- Aggregation of extraction results, embedded from the source: empty
input gives an empty object; a single result is passed through unchanged;
otherwise array items are concatenated and deduplicated into a copy of the
first result, with drawdown totalSum recomputed as the rounded sum. Types
without an array field are merged by repeated object spread. -/
def aggregateResults (results : List DocResult) (docType : String) : DocResult :=
  match results with
  | [] => ⟨[], [], none⟩
  | [r] => r
  | r0 :: _ =>
      match arrayFieldMap docType with
      | none => results.foldl mergeDocResult ⟨[], [], none⟩
      | some f =>
          let deduped := deduplicateRows (collectArrayItems results f) docType
          let base := { r0 with arrays := assocSet r0.arrays f deduped }
          if docType = "drawdown" then
            { base with totalSum := some (round2 (sumAmounts deduped)) }
          else base

theorem assocGet_assocSet {α : Type} (l : List (String × α)) (f : String) (v : α) :
    assocGet (assocSet l f v) f = some v := by
  induction l with
  | nil => simp [assocSet, assocGet]
  | cons p t ih =>
      obtain ⟨k, w⟩ := p
      by_cases hk : k = f
      · simp [assocSet, assocGet, hk]
      · simp [assocSet, assocGet, hk, ih]

/-- Claim C2, as stated, is false: with a single extraction result the
aggregation passes the result through and totalSum is not recomputed. The
concrete result carries totalSum 999 while its single drawdown row has
amount 5. -/
theorem totalSum_single_result_counterexample :
    ¬ ((aggregateResults
          [⟨[], [("drawdowns", [[("amount", Val.str "5")]])], some 999⟩]
          "drawdown").totalSum =
        some (round2 (sumAmounts ((assocGet
          (aggregateResults
            [⟨[], [("drawdowns", [[("amount", Val.str "5")]])], some 999⟩]
            "drawdown").arrays "drawdowns").getD [])))) := by
  intro hcon
  have h1 : (aggregateResults
      [⟨[], [("drawdowns", [[("amount", Val.str "5")]])], some 999⟩]
      "drawdown") =
      ⟨[], [("drawdowns", [[("amount", Val.str "5")]])], some 999⟩ := rfl
  rw [h1] at hcon
  have h2 : sumAmounts [[("amount", Val.str "5")]] = 5 := by
    have hparts : jsParseFloatParts "5" = some ⟨false, 5, 0, 0, 0⟩ := by decide
    have hval : jsParseFloat? "5" = some 5 := by
      rw [jsParseFloat?, hparts]
      norm_num [ratOfParts]
    have hpa : parseAmount [("amount", Val.str "5")] = 5 := by
      have hget : rowGet [("amount", Val.str "5")] "amount" = some (Val.str "5") := by
        decide
      rw [parseAmount, hget]
      show (jsParseFloat? (valToString (Val.str "5"))).getD 0 = 5
      rw [show valToString (Val.str "5") = "5" from rfl, hval]
      rfl
    rw [sumAmounts, List.foldl_cons, List.foldl_nil, hpa]
    norm_num
  have h3 : (assocGet [("drawdowns", [[("amount", Val.str "5")]])]
      "drawdowns").getD [] = [[("amount", Val.str "5")]] := rfl
  rw [show (⟨[], [("drawdowns", [[("amount", Val.str "5")]])], some 999⟩ :
      DocResult).totalSum = some 999 from rfl] at hcon
  rw [show (⟨[], [("drawdowns", [[("amount", Val.str "5")]])], some 999⟩ :
      DocResult).arrays = [("drawdowns", [[("amount", Val.str "5")]])] from rfl,
    h3, h2] at hcon
  have h4 : round2 5 = 5 := by
    norm_num [round2]
  rw [h4] at hcon
  have : (999 : ℚ) = 5 := Option.some_inj.mp hcon
  norm_num at this

/-- Claim C2 amended: when at least two extraction results are aggregated,
the drawdown result carries the deduplicated concatenation of the drawdowns
arrays, and totalSum equals the rounded-to-2-decimals sum of parseFloat of
the amounts over exactly those final rows (missing or unparsable amounts
contributing zero). With a single result the aggregation is a pass-through
and totalSum keeps whatever value that result carried. -/
theorem totalSum_recomputed_on_aggregation (results : List DocResult)
    (h : 2 ≤ results.length) :
    assocGet (aggregateResults results "drawdown").arrays "drawdowns" =
      some (deduplicateRows (collectArrayItems results "drawdowns") "drawdown") ∧
    (aggregateResults results "drawdown").totalSum =
      some (round2 (sumAmounts
        (deduplicateRows (collectArrayItems results "drawdowns") "drawdown"))) := by
  match results with
  | [] => simp at h
  | [r] => simp at h
  | r0 :: r1 :: t =>
      constructor
      · show assocGet (assocSet r0.arrays "drawdowns" _) "drawdowns" = _
        rw [assocGet_assocSet]
      · rfl

/-- Witness for the amended C2 at a concrete two-result input. -/
theorem totalSum_recomputed_on_aggregation_witness :
    assocGet (aggregateResults
        [⟨[], [("drawdowns", [])], none⟩, ⟨[], [("drawdowns", [])], none⟩]
        "drawdown").arrays "drawdowns" =
      some (deduplicateRows (collectArrayItems
        [⟨[], [("drawdowns", [])], none⟩, ⟨[], [("drawdowns", [])], none⟩]
        "drawdowns") "drawdown") ∧
    (aggregateResults
        [⟨[], [("drawdowns", [])], none⟩, ⟨[], [("drawdowns", [])], none⟩]
        "drawdown").totalSum =
      some (round2 (sumAmounts (deduplicateRows (collectArrayItems
        [⟨[], [("drawdowns", [])], none⟩, ⟨[], [("drawdowns", [])], none⟩]
        "drawdowns") "drawdown"))) :=
  totalSum_recomputed_on_aggregation
    [⟨[], [("drawdowns", [])], none⟩, ⟨[], [("drawdowns", [])], none⟩] (by decide)

/-! ## CleanupStage (claim C1) -/

/-- The four fields removed by the cleanup stage. -/
def INTERNAL_FIELDS : List String :=
  ["_tileIndex", "_pageIndex", "_sliceIndex", "_sourceId"]

/-- Removal of the internal fields from an object. The source deletes each
of the four keys when present; on objects with unique keys this is
filtering them out. -/
def removeInternalFields {α : Type} (o : List (String × α)) : List (String × α) :=
  o.filter (fun kv => !INTERNAL_FIELDS.contains kv.1)

/-- CleanupStage.cleanupResult, first half: when the document type has an
array field and the result carries it as an array, clean each item. -/
def cleanupArrayItems (docType : String) (result : DocResult) : DocResult :=
  match arrayFieldMap docType with
  | some f =>
      match assocGet result.arrays f with
      | some items =>
          { result with
              arrays := assocSet result.arrays f (items.map removeInternalFields) }
      | none => result
  | none => result

/-- CleanupStage.cleanupResult: clean the array items, then remove the
internal fields at top level. -/
def cleanupResult (docType : String) (result : DocResult) : DocResult :=
  let r1 := cleanupArrayItems docType result
  { r1 with scalars := removeInternalFields r1.scalars,
            arrays := removeInternalFields r1.arrays }

theorem not_mem_removeInternalFields {α : Type} {l : List (String × α)} {f : String}
    (hf : f ∈ INTERNAL_FIELDS) (v : α) : (f, v) ∉ removeInternalFields l := by
  intro hmem
  have hp := List.of_mem_filter hmem
  simp only [INTERNAL_FIELDS, List.mem_cons, List.not_mem_nil, or_false] at hf
  rcases hf with rfl | rfl | rfl | rfl <;> simp [INTERNAL_FIELDS] at hp

theorem assocGet_removeInternalFields {α : Type} (l : List (String × α)) {q : String}
    (hq : INTERNAL_FIELDS.contains q = false) :
    assocGet (removeInternalFields l) q = assocGet l q := by
  induction l with
  | nil => rfl
  | cons p t ih =>
      obtain ⟨k, v⟩ := p
      show assocGet (List.filter _ ((k, v) :: t)) q = _
      rw [List.filter_cons]
      by_cases hk : (!INTERNAL_FIELDS.contains k) = true
      · rw [if_pos hk]
        show (if k = q then some v else assocGet (removeInternalFields t) q) =
          (if k = q then some v else assocGet t q)
        by_cases hkq : k = q
        · rw [if_pos hkq, if_pos hkq]
        · rw [if_neg hkq, if_neg hkq, ih]
      · rw [if_neg hk]
        have hkq : ¬ k = q := by
          intro he
          subst he
          rw [hq] at hk
          exact hk rfl
        show assocGet (removeInternalFields t) q = assocGet ((k, v) :: t) q
        rw [ih]
        show _ = (if k = q then some v else assocGet t q)
        rw [if_neg hkq]

theorem arrayFieldMap_not_internal {docType fld : String}
    (h : arrayFieldMap docType = some fld) : INTERNAL_FIELDS.contains fld = false := by
  unfold arrayFieldMap at h
  split_ifs at h <;> first
    | (rw [← Option.some_inj.mp h]; decide)
    | cases h

/-- Claim C1, as stated, is false: cleanup removes only the four tracking
markers, so a validation marker such as _validationIssue inside a drawdown
row and _validationError at top level survive into the emitted object. -/
theorem cleanup_claim_counterexample :
    (cleanupResult "drawdown"
        ⟨[("_validationError", Val.str "Invalid IBAN")],
         [("drawdowns", [[("iban", Val.str "X"),
            ("_validationIssue", Val.str "checksum_failed"),
            ("_tileIndex", Val.nat 0)]])], none⟩).arrays =
      [("drawdowns", [[("iban", Val.str "X"),
        ("_validationIssue", Val.str "checksum_failed")]])] ∧
    (cleanupResult "drawdown"
        ⟨[("_validationError", Val.str "Invalid IBAN")],
         [("drawdowns", [[("iban", Val.str "X"),
            ("_validationIssue", Val.str "checksum_failed"),
            ("_tileIndex", Val.nat 0)]])], none⟩).scalars =
      [("_validationError", Val.str "Invalid IBAN")] ∧
    "_validationIssue".data.head? = some '_' ∧
    "_validationError".data.head? = some '_' := by
  refine ⟨?_, ?_, rfl, rfl⟩ <;> rfl

/-- Claim C1 amended: after cleanup none of the four internal tracking
fields _tileIndex, _pageIndex, _sliceIndex, _sourceId remains, at top level
or in any item of the document-type array field; other keys, underscore
keys such as validation markers included, are untouched. -/
theorem cleanup_removes_tracking_fields (docType : String) (result : DocResult)
    (f : String) (hf : f ∈ INTERNAL_FIELDS) :
    (∀ v : Val, (f, v) ∉ (cleanupResult docType result).scalars) ∧
    (∀ (fld : String) (items : List Row) (row : Row),
      arrayFieldMap docType = some fld →
      assocGet (cleanupResult docType result).arrays fld = some items →
      row ∈ items → ∀ v : Val, (f, v) ∉ row) := by
  constructor
  · intro v
    exact not_mem_removeInternalFields hf v
  · intro fld items row hfld hget hrow v
    have hnotint := arrayFieldMap_not_internal hfld
    have hget2 : assocGet (cleanupArrayItems docType result).arrays fld = some items := by
      rw [show (cleanupResult docType result).arrays =
          removeInternalFields (cleanupArrayItems docType result).arrays from rfl,
        assocGet_removeInternalFields _ hnotint] at hget
      exact hget
    cases hitems0 : assocGet result.arrays fld with
    | none =>
        simp only [cleanupArrayItems, hfld, hitems0] at hget2
        cases hget2
    | some items0 =>
        simp only [cleanupArrayItems, hfld, hitems0] at hget2
        rw [assocGet_assocSet] at hget2
        have hitems : items = items0.map removeInternalFields :=
          (Option.some_inj.mp hget2).symm
        subst hitems
        obtain ⟨row0, _, hrow0⟩ := List.mem_map.mp hrow
        rw [← hrow0]
        exact not_mem_removeInternalFields hf v

/-- Witness for the amended C1 at a concrete input. -/
theorem cleanup_removes_tracking_fields_witness :
    ("_tileIndex" ∈ INTERNAL_FIELDS) ∧
    ((∀ v : Val, ("_tileIndex", v) ∉ (cleanupResult "drawdown"
        ⟨[("_tileIndex", Val.nat 7)],
         [("drawdowns", [[("_tileIndex", Val.nat 7)]])], none⟩).scalars) ∧
     (∀ (fld : String) (items : List Row) (row : Row),
        arrayFieldMap "drawdown" = some fld →
        assocGet (cleanupResult "drawdown"
          ⟨[("_tileIndex", Val.nat 7)],
           [("drawdowns", [[("_tileIndex", Val.nat 7)]])], none⟩).arrays fld =
          some items →
        row ∈ items → ∀ v : Val, ("_tileIndex", v) ∉ row)) :=
  ⟨by decide, cleanup_removes_tracking_fields "drawdown"
    ⟨[("_tileIndex", Val.nat 7)], [("drawdowns", [[("_tileIndex", Val.nat 7)]])], none⟩
    "_tileIndex" (by decide)⟩

/-! ## OCR-verified re-verification pass and merge (claim C4)

The OCR-verified stage sends still-invalid rows to the model and filters
the reply in performVerificationPass: a returned item is kept exactly when
its iban property is truthy and passes MOD-97 — the stage does NOT check
that the returned invoice number was among the rows it asked about (that
check exists only in the separate ValidationStage repair path,
IBANValidator.reVerifyTile). The kept items are then merged by mergeResults,
which drops items whose normalised invoice number already appears among the
valid ones. -/

/-- Filter applied to the model reply in performVerificationPass. -/
def verificationFilter (correctedItems : List Row) : List Row :=
  correctedItems.filter
    (fun item => rowTruthy item "iban" && validateIBANval (rowGet item "iban"))

/-- Source normalizeInvoiceNumber: empty for a falsy value, else trimmed,
lower-cased, with all whitespace removed. -/
def normalizeInvoiceNumber (v : Option Val) : String :=
  match v with
  | some w =>
      if valTruthy w then String.mk (stripWs (jsLowerAll (jsTrim (valToString w).data)))
      else ""
  | none => ""

/-- Normalised invoice number of a row. -/
def normInvOf (r : Row) : String := normalizeInvoiceNumber (rowGet r "invoiceNumber")

/-- Source mergeResults: start from the valid items and their normalised
invoice numbers; append each corrected item whose key is not yet present,
accumulating keys. The third argument is only logged by the source. -/
def mergeResults (validItems correctedItems originalInvalidItems : List Row) : List Row :=
  (correctedItems.foldl
    (fun st item =>
      let key := normInvOf item
      if key ∈ st.2 then st else (st.1 ++ [item], st.2 ++ [key]))
    (validItems, validItems.map normInvOf)).1

/-- Step 3b composition in the OCR-verified stage process function: the
model reply is filtered for IBAN validity and merged with the valid rows. -/
def ocrVerifiedAccept (validItems returned invalidItems : List Row) : List Row :=
  mergeResults validItems (verificationFilter returned) invalidItems

/-- Claim C4, as stated, is false: a row returned by the model whose
invoice number was never among the requested invalid rows is accepted as
long as its IBAN passes MOD-97. Here the pass asked only about invoice A,
the model returns a row for invoice B with a valid IBAN, and that row lands
in the merged result. -/
theorem verification_accepts_unrequested_counterexample :
    ocrVerifiedAccept []
        [[("invoiceNumber", Val.str "B"), ("iban", Val.str "GB82WEST12345698765432")]]
        [[("invoiceNumber", Val.str "A"), ("iban", Val.str "XX")]] =
      [[("invoiceNumber", Val.str "B"), ("iban", Val.str "GB82WEST12345698765432")]] ∧
    normInvOf [("invoiceNumber", Val.str "B"), ("iban", Val.str "GB82WEST12345698765432")] ∉
      [[("invoiceNumber", Val.str "A"), ("iban", Val.str "XX")]].map normInvOf := by
  constructor
  · decide
  · decide

/-- Claim C4 amended: in the OCR-verified branch a returned row is accepted
exactly when its iban property is truthy and passes MOD-97 (and, at merge
time, its normalised invoice number does not duplicate an already accepted
one); membership of its invoiceNumber in the requested invalid set is not
required — that check belongs to the ValidationStage repair path. Every
merged row is either one of the valid rows or a returned row with a valid
IBAN. -/
theorem verification_pass_accepts_only_valid_iban
    (validItems returned invalidItems : List Row) (r : Row)
    (hr : r ∈ ocrVerifiedAccept validItems returned invalidItems) :
    r ∈ validItems ∨ (r ∈ returned ∧ rowTruthy r "iban" = true ∧
      validateIBANval (rowGet r "iban") = true) := by
  have hmerge : ∀ (l : List Row) (v : List Row) (ks : List String),
      r ∈ (l.foldl
        (fun st item =>
          let key := normInvOf item
          if key ∈ st.2 then st else (st.1 ++ [item], st.2 ++ [key]))
        (v, ks)).1 → r ∈ v ∨ r ∈ l := by
    intro l
    induction l with
    | nil => intro v ks h; exact Or.inl h
    | cons item t ih =>
        intro v ks h
        simp only [List.foldl_cons] at h
        by_cases hk : normInvOf item ∈ ks
        · simp only [hk, if_pos] at h
          rcases ih v ks h with h1 | h1
          · exact Or.inl h1
          · exact Or.inr (List.mem_cons_of_mem _ h1)
        · simp only [if_neg hk] at h
          rcases ih (v ++ [item]) (ks ++ [normInvOf item]) h with h1 | h1
          · rcases List.mem_append.mp h1 with h2 | h2
            · exact Or.inl h2
            · simp only [List.mem_singleton] at h2
              exact Or.inr (h2 ▸ List.mem_cons_self _ _)
          · exact Or.inr (List.mem_cons_of_mem _ h1)
  rcases hmerge (verificationFilter returned) validItems (validItems.map normInvOf) hr with
    h1 | h1
  · exact Or.inl h1
  · refine Or.inr ⟨List.mem_of_mem_filter h1, ?_⟩
    have hp := List.of_mem_filter h1
    rw [Bool.and_eq_true] at hp
    exact hp

/-- Witness for the amended C4 at the concrete counterexample input. -/
theorem verification_pass_accepts_only_valid_iban_witness :
    [("invoiceNumber", Val.str "B"), ("iban", Val.str "GB82WEST12345698765432")] ∈
      ([] : List Row) ∨
    ([("invoiceNumber", Val.str "B"), ("iban", Val.str "GB82WEST12345698765432")] ∈
      [[("invoiceNumber", Val.str "B"), ("iban", Val.str "GB82WEST12345698765432")]] ∧
     rowTruthy [("invoiceNumber", Val.str "B"),
       ("iban", Val.str "GB82WEST12345698765432")] "iban" = true ∧
     validateIBANval (rowGet [("invoiceNumber", Val.str "B"),
       ("iban", Val.str "GB82WEST12345698765432")] "iban") = true) :=
  verification_pass_accepts_only_valid_iban []
    [[("invoiceNumber", Val.str "B"), ("iban", Val.str "GB82WEST12345698765432")]]
    [[("invoiceNumber", Val.str "A"), ("iban", Val.str "XX")]]
    [("invoiceNumber", Val.str "B"), ("iban", Val.str "GB82WEST12345698765432")]
    (by decide)

/-! ## ExtractionStage row tagging (claim C7) -/

/-- Tile coordinates carried by a tile record. -/
structure TileInfo where
  globalIndex : ℕ
  pageIndex : ℕ
  sliceIndex : ℕ

/-- Source tagging in extractTile: when the returned data carries a
drawdowns array, every row of it is stamped in place with _tileIndex,
_pageIndex and _sliceIndex; nothing else is touched, whatever the document
type — the field name drawdowns is hard-coded. -/
def tagTileRows (data : DocResult) (tile : TileInfo) : DocResult :=
  match assocGet data.arrays "drawdowns" with
  | some rows =>
      { data with
          arrays := assocSet data.arrays "drawdowns"
            (rows.map (fun row =>
              rowSet (rowSet (rowSet row "_tileIndex" (Val.nat tile.globalIndex))
                "_pageIndex" (Val.nat tile.pageIndex))
                "_sliceIndex" (Val.nat tile.sliceIndex))) }
  | none => data

theorem rowGet_rowSet (r : Row) (f : String) (v : Val) (q : String) :
    rowGet (rowSet r f v) q = if q = f then some v else rowGet r q := by
  induction r with
  | nil =>
      by_cases h : q = f <;> simp_all [rowSet, rowGet, eq_comm]
  | cons p t ih =>
      obtain ⟨k0, v0⟩ := p
      by_cases h0 : k0 = f <;> by_cases hq : k0 = q <;>
        simp_all [rowSet, rowGet, eq_comm]

/-- Claim C7, as stated, is false: for an invoice extraction the rows of
invoiceRows are not stamped at all — extractTile only tags a drawdowns
array. -/
theorem tagging_invoice_rows_counterexample :
    arrayFieldMap "invoice" = some "invoiceRows" ∧
    tagTileRows ⟨[], [("invoiceRows", [[("invoiceNumber", Val.str "F1")]])], none⟩
        ⟨3, 1, 2⟩ =
      ⟨[], [("invoiceRows", [[("invoiceNumber", Val.str "F1")]])], none⟩ ∧
    rowGet [("invoiceNumber", Val.str "F1")] "_tileIndex" = none :=
  ⟨rfl, rfl, rfl⟩

/-- Claim C7 amended: upon a successful per-tile call exactly the elements
of a drawdowns array in the returned data are stamped with _tileIndex equal
to the tile's globalIndex, _pageIndex and _sliceIndex; arrays under any
other field name, including invoiceRows and transactions, are left
untouched whatever the document type. -/
theorem tagging_stamps_drawdowns (data : DocResult) (tile : TileInfo)
    (rows : List Row) (h : assocGet data.arrays "drawdowns" = some rows) :
    (assocGet (tagTileRows data tile).arrays "drawdowns" =
      some (rows.map (fun row =>
        rowSet (rowSet (rowSet row "_tileIndex" (Val.nat tile.globalIndex))
          "_pageIndex" (Val.nat tile.pageIndex))
          "_sliceIndex" (Val.nat tile.sliceIndex)))) ∧
    (∀ row ∈ rows,
      rowGet (rowSet (rowSet (rowSet row "_tileIndex" (Val.nat tile.globalIndex))
          "_pageIndex" (Val.nat tile.pageIndex))
          "_sliceIndex" (Val.nat tile.sliceIndex)) "_tileIndex" =
        some (Val.nat tile.globalIndex) ∧
      rowGet (rowSet (rowSet (rowSet row "_tileIndex" (Val.nat tile.globalIndex))
          "_pageIndex" (Val.nat tile.pageIndex))
          "_sliceIndex" (Val.nat tile.sliceIndex)) "_pageIndex" =
        some (Val.nat tile.pageIndex) ∧
      rowGet (rowSet (rowSet (rowSet row "_tileIndex" (Val.nat tile.globalIndex))
          "_pageIndex" (Val.nat tile.pageIndex))
          "_sliceIndex" (Val.nat tile.sliceIndex)) "_sliceIndex" =
        some (Val.nat tile.sliceIndex)) := by
  constructor
  · simp only [tagTileRows, h]
    rw [assocGet_assocSet]
  · intro row _
    refine ⟨?_, ?_, ?_⟩
    · rw [rowGet_rowSet, if_neg (by decide), rowGet_rowSet, if_neg (by decide),
        rowGet_rowSet, if_pos rfl]
    · rw [rowGet_rowSet, if_neg (by decide), rowGet_rowSet, if_pos rfl]
    · rw [rowGet_rowSet, if_pos rfl]

/-- Witness for the amended C7 at a concrete input. -/
theorem tagging_stamps_drawdowns_witness :
    (assocGet (tagTileRows ⟨[], [("drawdowns", [[("amount", Val.str "5")]])], none⟩
        ⟨3, 1, 2⟩).arrays "drawdowns" =
      some ([[("amount", Val.str "5")]].map (fun row =>
        rowSet (rowSet (rowSet row "_tileIndex" (Val.nat 3))
          "_pageIndex" (Val.nat 1)) "_sliceIndex" (Val.nat 2)))) ∧
    (∀ row ∈ [[("amount", Val.str "5")]],
      rowGet (rowSet (rowSet (rowSet row "_tileIndex" (Val.nat 3))
          "_pageIndex" (Val.nat 1)) "_sliceIndex" (Val.nat 2)) "_tileIndex" =
        some (Val.nat 3) ∧
      rowGet (rowSet (rowSet (rowSet row "_tileIndex" (Val.nat 3))
          "_pageIndex" (Val.nat 1)) "_sliceIndex" (Val.nat 2)) "_pageIndex" =
        some (Val.nat 1) ∧
      rowGet (rowSet (rowSet (rowSet row "_tileIndex" (Val.nat 3))
          "_pageIndex" (Val.nat 1)) "_sliceIndex" (Val.nat 2)) "_sliceIndex" =
        some (Val.nat 2)) :=
  tagging_stamps_drawdowns ⟨[], [("drawdowns", [[("amount", Val.str "5")]])], none⟩
    ⟨3, 1, 2⟩ [[("amount", Val.str "5")]] rfl

/-! ## tileImage slice geometry (claim C10)

The loop of tileImage starts at the header height and emits strips of the
configured slice height stepping by sliceHeight − overlap, clamping the
last strip to the page bottom; a remaining strip not taller than the
overlap stops the loop once at least one slice exists. The loop advances by
at least one pixel per iteration whenever overlap < sliceHeight, so fuel
H + 1 makes the fuel-indexed recursion total and never truncating under
that hypothesis. -/

/-- Slice loop with explicit fuel. Each entry is (startY, height). -/
def sliceLoop (H sh ov : ℕ) : ℕ → ℕ → Bool → List (ℕ × ℕ)
  | 0, _, _ => []
  | fuel + 1, cur, nonempty =>
      if cur < H then
        let endY := min (cur + sh) H
        let hgt := endY - cur
        if hgt ≤ ov ∧ nonempty = true then []
        else (cur, hgt) :: sliceLoop H sh ov fuel (cur + (sh - ov)) true
      else []

/-- Slice rectangles produced by tileImage: a page not taller than header
plus one slice is returned whole as a single slice; otherwise the loop
starts at the header height. -/
def tileSlices (H hh sh ov : ℕ) : List (ℕ × ℕ) :=
  if H ≤ hh + sh then [(0, H)]
  else sliceLoop H sh ov (H + 1) hh false

example : tileSlices 2000 200 900 100 = [(200, 900), (1000, 900), (1800, 200)] := by
  decide

example : tileSlices 3000 200 900 100 =
    [(200, 900), (1000, 900), (1800, 900), (2600, 400)] := by decide

theorem sliceLoop_get (H sh ov : ℕ) (hov : ov < sh) :
    ∀ (fuel cur : ℕ) (ne : Bool), H ≤ cur + fuel →
    ∀ i : ℕ, i < (sliceLoop H sh ov fuel cur ne).length →
      (sliceLoop H sh ov fuel cur ne)[i]? =
        some (cur + i * (sh - ov), min sh (H - (cur + i * (sh - ov)))) := by
  intro fuel
  induction fuel with
  | zero =>
      intro cur ne _ i hi
      simp [sliceLoop] at hi
  | succ fuel ih =>
      intro cur ne hfuel i hi
      by_cases hcur : cur < H
      · simp only [sliceLoop, if_pos hcur] at hi ⊢
        by_cases hbreak : min (cur + sh) H - cur ≤ ov ∧ ne = true
        · rw [if_pos hbreak] at hi
          simp at hi
        · rw [if_neg hbreak] at hi ⊢
          match i with
          | 0 =>
              simp only [List.getElem?_cons_zero, Option.some_inj]
              have harith : min (cur + sh) H - cur = min sh (H - cur) := by omega
              rw [harith]
              simp
          | Nat.succ j =>
              simp only [List.getElem?_cons_succ]
              have hj := ih (cur + (sh - ov)) true (by omega) j
                (by simpa using Nat.lt_of_succ_lt_succ hi)
              rw [hj]
              have harith : cur + (sh - ov) + j * (sh - ov) =
                  cur + (j + 1) * (sh - ov) := by ring_nf
              rw [harith]
      · simp only [sliceLoop, if_neg hcur] at hi
        simp at hi

theorem sliceLoop_covers (H sh ov : ℕ) (hov : ov < sh) :
    ∀ (fuel cur : ℕ) (ne : Bool), H ≤ cur + fuel → cur < H →
    (ne = false ∨ ov < H - cur) →
    ∀ y, cur ≤ y → y < H →
    ∃ p ∈ sliceLoop H sh ov fuel cur ne, p.1 ≤ y ∧ y < p.1 + p.2 := by
  intro fuel
  induction fuel with
  | zero =>
      intro cur ne hfuel hcur _ y _ _
      omega
  | succ fuel ih =>
      intro cur ne hfuel hcur hpre y hy1 hy2
      have hnobreak : ¬ (min (cur + sh) H - cur ≤ ov ∧ ne = true) := by
        rintro ⟨hle, hne⟩
        rcases hpre with hf | hlt
        · rw [hf] at hne; cases hne
        · omega
      simp only [sliceLoop, if_pos hcur, if_neg hnobreak]
      by_cases hyin : y < cur + (min (cur + sh) H - cur)
      · exact ⟨(cur, min (cur + sh) H - cur), List.mem_cons_self _ _, hy1, hyin⟩
      · have hshlt : cur + sh < H := by omega
        have hrec := ih (cur + (sh - ov)) true (by omega) (by omega)
          (Or.inr (by omega)) y (by omega) hy2
        obtain ⟨p, hp, hple, hplt⟩ := hrec
        exact ⟨p, List.mem_cons_of_mem _ hp, hple, hplt⟩

/-- Claim C10. For a page taller than header plus one slice and an overlap
smaller than the slice height, slice i starts at headerHeight plus i times
(sliceHeight − overlap) and has height min(sliceHeight, H − start), and
every pixel row of the body, from the header height to the page bottom,
lies inside at least one emitted slice: the stop condition only drops a
strip already covered by the previous slice. -/
theorem tile_slices_coverage (H hh sh ov : ℕ) (h1 : hh + sh < H) (h2 : ov < sh) :
    (∀ i : ℕ, i < (tileSlices H hh sh ov).length →
      (tileSlices H hh sh ov)[i]? =
        some (hh + i * (sh - ov), min sh (H - (hh + i * (sh - ov))))) ∧
    (∀ y, hh ≤ y → y < H →
      ∃ p ∈ tileSlices H hh sh ov, p.1 ≤ y ∧ y < p.1 + p.2) := by
  have hne : ¬ H ≤ hh + sh := by omega
  have hts : tileSlices H hh sh ov = sliceLoop H sh ov (H + 1) hh false := by
    rw [tileSlices, if_neg hne]
  constructor
  · intro i hi
    rw [hts] at hi ⊢
    exact sliceLoop_get H sh ov h2 (H + 1) hh false (by omega) i hi
  · intro y hy1 hy2
    rw [hts]
    exact sliceLoop_covers H sh ov h2 (H + 1) hh false (by omega) (by omega)
      (Or.inl rfl) y hy1 hy2

/-- Witness for C10 at the default geometry on a 2000 pixel page. -/
theorem tile_slices_coverage_witness :
    (200 + 900 < 2000 ∧ 100 < 900) ∧
    ((∀ i : ℕ, i < (tileSlices 2000 200 900 100).length →
      (tileSlices 2000 200 900 100)[i]? =
        some (200 + i * (900 - 100), min 900 (2000 - (200 + i * (900 - 100))))) ∧
    (∀ y, 200 ≤ y → y < 2000 →
      ∃ p ∈ tileSlices 2000 200 900 100, p.1 ≤ y ∧ y < p.1 + p.2)) :=
  ⟨⟨by decide, by decide⟩, tile_slices_coverage 2000 200 900 100 (by decide) (by decide)⟩

/-! ## OCR-based IBAN repair (claim C6)

correctIBANsFromOCR scans the OCR text with the global case-insensitive
regex for two letters, optional whitespace, two digits, then 18 to 26
characters of whitespace or digits, delimited by word boundaries; each
match is normalised (whitespace removed, upper-cased) and kept as a
candidate when it passes MOD-97. Each invalid row is then compared by
Levenshtein distance to the candidates sharing its two-letter country code;
a closest candidate at distance at most 3 replaces the IBAN and marks the
row _ocrCorrected, otherwise the row stays in the still-invalid set.

The scanner below implements the regex semantics directly: a word boundary
holds where word-character-ness changes; the letter class is [A-Za-z] under
the i flag and [A-Z] without; the inner quantifiers need no general
backtracking because the whitespace and digit classes are disjoint, so only
the trailing body length backtracks, largest first. The global exec loop
resumes after each match; the fuel is one more than the text length, enough
because every iteration consumes at least one character. -/

/-- Source levenshteinDistance: the full dynamic-programming matrix, rows
indexed by the second string, returning the last cell. -/
def levGo (y : Char) : List Char → List ℕ → ℕ → ℕ → List ℕ
  | [], _, _, _ => []
  | _ :: _, [], _, _ => []
  | x :: xs, p :: ps, diag, left =>
      let cur := if x = y then diag else 1 + min diag (min p left)
      cur :: levGo y xs ps p cur

/-- One row of the Levenshtein matrix from the previous row. -/
def levRow (a : List Char) (y : Char) (prev : List ℕ) : List ℕ :=
  match prev with
  | [] => []
  | p0 :: ps =>
      let first := p0 + 1
      first :: levGo y a ps p0 first

/-- Levenshtein edit distance, embedded from the source matrix algorithm
with its guards for empty inputs. -/
def levenshteinDistance (a b : List Char) : ℕ :=
  if a.isEmpty then b.length
  else if b.isEmpty then a.length
  else ((b.foldl (fun prev y => levRow a y prev)
    (List.range (a.length + 1))).getLast?).getD 0

example : levenshteinDistance "SK31".data "SK31".data = 0 := by decide
example : levenshteinDistance "SK310".data "SK319".data = 1 := by decide
example : levenshteinDistance "kitten".data "sitting".data = 3 := by decide
example : levenshteinDistance "SK31".data "".data = 4 := by decide

/-- Attempted regex match at the current position. prevW tells whether the
preceding character is a word character (for the leading boundary); ci
selects the case-insensitive letter class. Returns the matched characters
and the remaining text. -/
def matchIBANAt (ci : Bool) (prevW : Bool) (s : List Char) :
    Option (List Char × List Char) :=
  if prevW then none
  else
    match s with
    | c1 :: c2 :: rest =>
        let letterOK := fun c => if ci then isAlphaCI c else isUpperAZ c
        if letterOK c1 && letterOK c2 then
          let wsRun := rest.takeWhile jsWs
          let rest2 := rest.dropWhile jsWs
          match rest2 with
          | d1 :: d2 :: rest3 =>
              if isDigit09 d1 && isDigit09 d2 then
                let bodyClass := fun c => jsWs c || isDigit09 c
                let run := rest3.takeWhile bodyClass
                let tail := rest3.dropWhile bodyClass
                let maxK := min run.length 26
                let boundaryOK := fun (k : ℕ) =>
                  match (run.take k).getLast? with
                  | none => false
                  | some last =>
                      let nextW := match (run.drop k ++ tail).head? with
                        | none => false
                        | some c => isWordChar c
                      isWordChar last != nextW
                match ((List.range 27).filter
                    (fun k => 18 ≤ k ∧ k ≤ maxK)).reverse.find? boundaryOK with
                | some k =>
                    some (c1 :: c2 :: (wsRun ++ d1 :: d2 :: run.take k),
                          run.drop k ++ tail)
                | none => none
              else none
          | _ => none
        else none
    | _ => none

/-- Global exec loop with fuel. -/
def scanGo (ci : Bool) : ℕ → Bool → List Char → List (List Char)
  | 0, _, _ => []
  | _ + 1, _, [] => []
  | fuel + 1, prevW, c :: rest =>
      match matchIBANAt ci prevW (c :: rest) with
      | some (m, remaining) =>
          m :: scanGo ci fuel (isWordChar (m.getLast?.getD c)) remaining
      | none => scanGo ci fuel (isWordChar c) rest

/-- All regex matches of the IBAN pattern over a text. -/
def scanIBANCandidates (ci : Bool) (text : List Char) : List (List Char) :=
  scanGo ci (text.length + 1) false text

/-- Candidate IBANs from the OCR text: matches (case-insensitive, as the
source regex carries the i flag), normalised, restricted to MOD-97 valid
ones. -/
def extractOCRIbans (ci : Bool) (ocrText : String) : List String :=
  ((scanIBANCandidates ci ocrText.data).map
    (fun m => String.mk ((stripWs m).map jsToUpper))).filter validateIBAN

example :
    extractOCRIbans true "iban sk31 1200 0000 1987 4263 7541 due" =
      ["SK3112000000198742637541"] := by decide

example : extractOCRIbans false "iban sk31 1200 0000 1987 4263 7541 due" = [] := by
  decide

example :
    extractOCRIbans false "iban SK3112000000198742637541 due" =
      ["SK3112000000198742637541"] := by decide

/-- Fold step of findBestIBANMatch: skip a candidate of a different country
code; otherwise take it when strictly closer than the best so far and
within distance 3. -/
def fbStep (invalidIban : List Char) (best : Option (List Char × ℕ))
    (validIban : List Char) : Option (List Char × ℕ) :=
  if invalidIban.take 2 ≠ validIban.take 2 then best
  else
    let d := levenshteinDistance invalidIban validIban
    if (match best with | none => true | some b => decide (d < b.2)) &&
        decide (d ≤ 3) then
      some (validIban, d)
    else best

/-- Source findBestIBANMatch. -/
def findBestIBANMatch (invalidIban : List Char) (validIbans : List (List Char)) :
    Option (List Char × ℕ) :=
  if invalidIban.isEmpty then none
  else validIbans.foldl (fbStep invalidIban) none

/-- The raw iban property as the string the source manipulates; the empty
string for a missing or falsy value. -/
def ibanRawStr (r : Row) : String :=
  match rowGet r "iban" with
  | some v => if valTruthy v then valToString v else ""
  | none => ""

/-- Source correctIBANsFromOCR: walk the invalid rows accumulating the
corrected and still-invalid lists in order. -/
def correctIBANsFromOCR (invalidItems : List Row) (ocrText : String) :
    List Row × List Row :=
  if ocrText.isEmpty then ([], invalidItems)
  else
    invalidItems.foldl
      (fun st item =>
        if ((stripWs (ibanRawStr item).data).map jsToUpper).isEmpty then
          (st.1, st.2 ++ [item])
        else
          match findBestIBANMatch ((stripWs (ibanRawStr item).data).map jsToUpper)
              ((extractOCRIbans true ocrText).map String.data) with
          | some best =>
              (st.1 ++ [rowSet (rowSet item "iban" (Val.str (String.mk best.1)))
                "_ocrCorrected" (Val.bool true)], st.2)
          | none => (st.1, st.2 ++ [item]))
      ([], [])

/-! ## Spec-side repair written from the claim text -/

/-- Spec-side selection: among the candidates sharing the first two
characters, the closest by Levenshtein distance (the earliest on ties) when
the minimum is at most 3, else none. -/
def levSpecPick (invalidIban : List Char) : List (List Char) → Option (List Char × ℕ)
  | [] => none
  | c :: cs =>
      if invalidIban.take 2 ≠ c.take 2 then levSpecPick invalidIban cs
      else
        let d := levenshteinDistance invalidIban c
        if 3 < d then levSpecPick invalidIban cs
        else
          match levSpecPick invalidIban cs with
          | none => some (c, d)
          | some best => if best.2 < d then some best else some (c, d)

/-- Spec-side repair, parameterised by the case sensitivity of the scan: as
the claim describes, candidates are the normalised MOD-97-valid pattern
matches; each invalid row with a candidate of its country code within
distance 3 is corrected to the closest one and marked _ocrCorrected, the
rest stay invalid. -/
def ocrRepairSpecWith (ci : Bool) (invalidItems : List Row) (ocrText : String) :
    List Row × List Row :=
  if ocrText.isEmpty then ([], invalidItems)
  else
    invalidItems.foldl
      (fun st item =>
        if ((stripWs (ibanRawStr item).data).map jsToUpper).isEmpty then
          (st.1, st.2 ++ [item])
        else
          match levSpecPick ((stripWs (ibanRawStr item).data).map jsToUpper)
              ((extractOCRIbans ci ocrText).map String.data) with
          | some best =>
              (st.1 ++ [rowSet (rowSet item "iban" (Val.str (String.mk best.1)))
                "_ocrCorrected" (Val.bool true)], st.2)
          | none => (st.1, st.2 ++ [item]))
      ([], [])

/-- Combination of a running best with the best of a suffix: keep the
strictly smaller distance, the running best on ties. -/
def fbMerge (b s : Option (List Char × ℕ)) : Option (List Char × ℕ) :=
  match b, s with
  | none, s => s
  | some bv, none => some bv
  | some bv, some sv => if sv.2 < bv.2 then some sv else some bv

theorem fbMerge_none (s : Option (List Char × ℕ)) : fbMerge none s = s := by
  cases s <;> rfl

/-- The source fold computing the best match agrees with merging the
running best into the spec-side recursive selection. -/
theorem fb_fold_merge (inv : List Char) (cs : List (List Char)) :
    ∀ b, List.foldl (fbStep inv) b cs = fbMerge b (levSpecPick inv cs) := by
  induction cs with
  | nil => intro b; cases b <;> rfl
  | cons c cs ih =>
      intro b
      rw [List.foldl_cons]
      by_cases htake : inv.take 2 = c.take 2
      · have hif : ¬ (inv.take 2 ≠ c.take 2) := not_not_intro htake
        by_cases hd3 : levenshteinDistance inv c ≤ 3
        · have hnlt : ¬ (3 < levenshteinDistance inv c) := not_lt.mpr hd3
          cases b with
          | none =>
              have hstep : fbStep inv none c =
                  some (c, levenshteinDistance inv c) := by
                simp [fbStep, hif, hd3]
              rw [hstep, ih]
              rcases hpick : levSpecPick inv cs with _ | ⟨c2, d2⟩
              · simp [levSpecPick, hif, hnlt, hpick, fbMerge]
              · simp only [levSpecPick, if_neg hif, if_neg hnlt, hpick]
                by_cases h2 : d2 < levenshteinDistance inv c
                · simp [fbMerge, h2]
                · simp [fbMerge, h2]
          | some bv =>
              by_cases hlt : levenshteinDistance inv c < bv.2
              · have hstep : fbStep inv (some bv) c =
                    some (c, levenshteinDistance inv c) := by
                  simp [fbStep, hif, hd3, hlt]
                rw [hstep, ih]
                rcases hpick : levSpecPick inv cs with _ | ⟨c2, d2⟩
                · simp only [levSpecPick, if_neg hif, if_neg hnlt, hpick]
                  simp [fbMerge, hlt]
                · simp only [levSpecPick, if_neg hif, if_neg hnlt, hpick]
                  by_cases h2 : d2 < levenshteinDistance inv c
                  · have h3 : d2 < bv.2 := h2.trans hlt
                    simp [fbMerge, h2, h3]
                  · simp [fbMerge, h2, hlt]
              · have hstep : fbStep inv (some bv) c = some bv := by
                  simp [fbStep, hif, hlt]
                rw [hstep, ih]
                rcases hpick : levSpecPick inv cs with _ | ⟨c2, d2⟩
                · simp only [levSpecPick, if_neg hif, if_neg hnlt, hpick]
                  simp [fbMerge, hlt]
                · simp only [levSpecPick, if_neg hif, if_neg hnlt, hpick]
                  by_cases h2 : d2 < levenshteinDistance inv c
                  · simp [fbMerge, h2]
                  · have h3 : ¬ d2 < bv.2 := by omega
                    simp [fbMerge, h2, h3, hlt]
        · have hstep : fbStep inv b c = b := by
            simp [fbStep, hif, hd3]
          have hpick : levSpecPick inv (c :: cs) = levSpecPick inv cs := by
            simp [levSpecPick, hif, not_le.mp hd3]
          rw [hstep, hpick]
          exact ih b
      · have hstep : fbStep inv b c = b := by
          simp [fbStep, htake]
        have hpick : levSpecPick inv (c :: cs) = levSpecPick inv cs := by
          simp [levSpecPick, htake]
        rw [hstep, hpick]
        exact ih b

/-- For a non-empty invalid IBAN the source search equals the spec-side
selection. -/
theorem findBest_eq_levSpecPick (inv : List Char) (cs : List (List Char))
    (h : inv.isEmpty = false) :
    findBestIBANMatch inv cs = levSpecPick inv cs := by
  unfold findBestIBANMatch
  rw [if_neg (by simp [h]), fb_fold_merge, fbMerge_none]

set_option maxRecDepth 200000 in
/-- C6 counterexample: the source regex carries the i flag, so a valid IBAN
printed in lower case in the OCR text is a candidate and repairs the row,
while the claim's case-sensitive pattern ^[A-Z]\x7b2\x7d... yields no
candidate at all and would leave the row in the still-invalid set. -/
theorem ocr_repair_case_sensitivity_counterexample :
    correctIBANsFromOCR
      [[("invoiceNumber", Val.str "F1"), ("iban", Val.str "SK3112000000198742637540")]]
      "iban sk31 1200 0000 1987 4263 7541 due" =
      ([[("invoiceNumber", Val.str "F1"),
         ("iban", Val.str "SK3112000000198742637541"),
         ("_ocrCorrected", Val.bool true)]], []) ∧
    ocrRepairSpecWith false
      [[("invoiceNumber", Val.str "F1"), ("iban", Val.str "SK3112000000198742637540")]]
      "iban sk31 1200 0000 1987 4263 7541 due" =
      ([], [[("invoiceNumber", Val.str "F1"),
             ("iban", Val.str "SK3112000000198742637540")]]) ∧
    correctIBANsFromOCR
      [[("invoiceNumber", Val.str "F1"), ("iban", Val.str "SK3112000000198742637540")]]
      "iban sk31 1200 0000 1987 4263 7541 due" ≠
    ocrRepairSpecWith false
      [[("invoiceNumber", Val.str "F1"), ("iban", Val.str "SK3112000000198742637540")]]
      "iban sk31 1200 0000 1987 4263 7541 due" := by
  refine ⟨by decide, by decide, by decide⟩

/-- C6: OCR-based IBAN repair equals the spec-side description once the
candidate scan is taken case-insensitively, as the source regex's i flag
dictates: candidates are the normalised MOD-97-valid matches of the
boundary-delimited letters-digits pattern, each invalid row is corrected to
the Levenshtein-closest candidate of its country code when that distance is
at most 3 and marked _ocrCorrected, and rows without such a candidate or
without an IBAN stay in the still-invalid list. -/
theorem ocr_repair_matches_spec_ci (invalidItems : List Row) (ocrText : String) :
    correctIBANsFromOCR invalidItems ocrText =
      ocrRepairSpecWith true invalidItems ocrText := by
  unfold correctIBANsFromOCR ocrRepairSpecWith
  by_cases h : ocrText.isEmpty
  · rw [if_pos h, if_pos h]
  · rw [if_neg h, if_neg h]
    congr 1
    funext st item
    by_cases hinv : ((stripWs (ibanRawStr item).data).map jsToUpper).isEmpty
    · rw [if_pos hinv, if_pos hinv]
    · rw [if_neg hinv, if_neg hinv,
        findBest_eq_levSpecPick _ _ (Bool.eq_false_iff.mpr hinv)]

end DocRec
